import Mathlib

/-!
# ICMP probe tools: checksum, ping loop, traceroute sweep

A shallow embedding of `ping.c` and `partB/traceroute.c`.

Conventions of the embedding.

* A byte buffer is a `List Nat` whose elements are below 256 (`IsBytes`).
  A call `calculate_checksum(p, n)` is modelled on the list of the `n` bytes
  that `p` addresses.
* `unsigned int` accumulators are naturals reduced modulo `2 ^ 32` after
  every addition; `unsigned short` values are naturals below `2 ^ 16`.
  `x & 0xFFFF` is written `x % 65536` and `x >> 16` is written `x / 65536`.
* The host byte order is a parameter `be : Bool` (`true` on a big-endian
  host, `false` on a little-endian host): the C code reads and writes
  16-bit words through `unsigned short *`, which depends on it.
* A `double` is the rational it represents; the additions and divisions that
  ping.c makes on its statistics are followed by `round64`, the rounding of
  IEEE 754 binary64 to the nearest value, ties to even.
-/

/-! ## Bytes and host words -/

/-- Every element of the buffer is a byte. -/
def IsBytes (buf : List Nat) : Prop := ∀ b ∈ buf, b < 256

instance (buf : List Nat) : Decidable (IsBytes buf) := by
  unfold IsBytes; infer_instance

/-- The `unsigned short` read from two consecutive bytes `b0 b1` of memory. -/
def word16 (be : Bool) (b0 b1 : Nat) : Nat :=
  if be then 256 * b0 + b1 else b0 + 256 * b1

/-- The two bytes of memory written by storing the `unsigned short` `v`. -/
def store16 (be : Bool) (v : Nat) : List Nat :=
  if be then [v / 256 % 256, v % 256] else [v % 256, v / 256 % 256]

/-- Conversion of a C `int` to `uint16_t`. -/
def toU16 (x : Int) : Nat := (x % 65536).toNat

/-- The two bytes of memory holding `htons(x)`: most significant byte first,
whatever the host order. -/
def htonsBytes (x : Int) : List Nat := [toU16 x / 256, toU16 x % 256]

/-- Assignment to the `checksum` field of `struct icmphdr` / `icmp6_cksum`:
a 16-bit host-order store at byte offsets 2 and 3. -/
def set_checksum (be : Bool) (buf : List Nat) (v : Nat) : List Nat :=
  (buf.set 2 ((store16 be v).getD 0 0)).set 3 ((store16 be v).getD 1 0)

/-! ## `calculate_checksum` of ping.c -/

namespace Ping

/-- Main summing loop and the left-over byte of `calculate_checksum`
(ping.c lines 448-456): `total_sum += *data_pointer++` for each pair of bytes,
then `total_sum += *((unsigned char *)data_pointer)` for a final single byte. -/
def sum_loop (be : Bool) : List Nat → Nat → Nat
  | b0 :: b1 :: rest, total_sum => sum_loop be rest ((total_sum + word16 be b0 b1) % 2 ^ 32)
  | [b], total_sum => (total_sum + b) % 2 ^ 32
  | [], total_sum => total_sum

/-- The fold loop (ping.c lines 459-460):
`while (total_sum >> 16) total_sum = (total_sum & 0xFFFF) + (total_sum >> 16);`. -/
def fold_loop (total_sum : Nat) : Nat :=
  if total_sum / 65536 ≠ 0 then
    fold_loop ((total_sum % 65536 + total_sum / 65536) % 2 ^ 32)
  else total_sum
termination_by total_sum
decreasing_by
  have h1 : (total_sum % 65536 + total_sum / 65536) % 2 ^ 32
      ≤ total_sum % 65536 + total_sum / 65536 := Nat.mod_le _ _
  omega

/-- The function `calculate_checksum` of ping.c on the `bytes` bytes of `data`;
the result is `~((unsigned short) total_sum)` as an `unsigned short`. -/
def calculate_checksum (be : Bool) (data : List Nat) : Nat :=
  65535 - fold_loop (sum_loop be data 0) % 65536

end Ping

/-! ## `calculate_checksum` of traceroute.c -/

namespace Traceroute

/-- Summing loop and odd byte of `calculate_checksum` (traceroute.c lines 26-34).
The odd byte is stored into the first byte of the zeroed `unsigned short answer`,
which is then added: a low byte on a little-endian host, a high byte on a
big-endian one. -/
def sum_loop (be : Bool) : List Nat → Nat → Nat
  | b0 :: b1 :: rest, sum => sum_loop be rest ((sum + word16 be b0 b1) % 2 ^ 32)
  | [b], sum => (sum + word16 be b 0) % 2 ^ 32
  | [], sum => sum

/-- The two fold statements and the complement (traceroute.c lines 37-39):
`sum = (sum >> 16) + (sum & 0xFFFF); sum += (sum >> 16); answer = ~sum;`. -/
def fold_twice (sum : Nat) : Nat :=
  let sum1 := (sum / 65536 + sum % 65536) % 2 ^ 32
  let sum2 := (sum1 + sum1 / 65536) % 2 ^ 32
  (2 ^ 32 - 1 - sum2) % 65536

/-- The function `calculate_checksum` of traceroute.c on the `len` bytes at `addr`. -/
def calculate_checksum (be : Bool) (addr : List Nat) : Nat :=
  fold_twice (sum_loop be addr 0)

end Traceroute

/-! ## Packets built by the two tools -/

namespace Ping

/-- The constant `BUFFER_SIZE` of ping.h. -/
def BUFFER_SIZE : Nat := 1024

/-- The constant `ICMP_ECHO`. -/
def ICMP_ECHO : Nat := 8
/-- The constant `ICMP_ECHOREPLY`. -/
def ICMP_ECHOREPLY : Nat := 0
/-- The constant `ICMP6_ECHO_REQUEST`. -/
def ICMP6_ECHO_REQUEST : Nat := 128
/-- The constant `ICMP6_ECHO_REPLY`. -/
def ICMP6_ECHO_REPLY : Nat := 129

/-- The payload string `msg` of `main` (63 characters), as bytes. -/
def msg : List Nat :=
  [65, 66, 67, 68, 69, 70, 71, 72, 73, 74, 75, 76, 77, 78, 79, 80, 81, 82, 83, 84,
   85, 86, 87, 88, 89, 90, 49, 50, 51, 52, 53, 54, 55, 56, 57, 48, 33, 64, 35, 36,
   94, 38, 42, 40, 41, 95, 43, 123, 125, 124, 58, 60, 62, 63, 126, 96, 45, 61, 91,
   93, 39, 44, 46]

/-- The value `payload_size = strlen(msg) + 1` of `main`. -/
def payload_size : Nat := msg.length + 1

/-- The value `sizeof(struct icmphdr)` (also `sizeof(struct icmp6_hdr)`). -/
def ICMP_HDRLEN : Nat := 8

/-- The buffer after the header fields and the payload are written, with the
checksum field still zero (ping.c lines 268-278 and 284-290): `type`, `code`,
checksum, `htons(getpid())`, `htons(seq)`, then `msg` and its terminating NUL,
in a zeroed buffer of `BUFFER_SIZE` bytes. -/
def fill_buffer (type : Nat) (pid seq : Int) : List Nat :=
  [type, 0, 0, 0] ++ htonsBytes pid ++ htonsBytes seq ++ msg ++ [0]
    ++ List.replicate (BUFFER_SIZE - (ICMP_HDRLEN + payload_size)) 0

/-- The buffer built for an IPv4 probe (ping.c lines 272-279): the checksum of
the first `sizeof(struct icmphdr) + payload_size` bytes is stored in the header. -/
def build_v4 (be : Bool) (pid seq : Int) : List Nat :=
  let buffer := fill_buffer ICMP_ECHO pid seq
  set_checksum be buffer (calculate_checksum be (buffer.take (ICMP_HDRLEN + payload_size)))

/-- The buffer built for an IPv6 probe (ping.c lines 284-290): the checksum field
is left zero. -/
def build_v6 (pid seq : Int) : List Nat :=
  fill_buffer ICMP6_ECHO_REQUEST pid seq

/-- The datagram handed to `sendto` for IPv4: the first 72 bytes of the buffer. -/
def echo_request (be : Bool) (pid seq : Int) : List Nat :=
  (build_v4 be pid seq).take (ICMP_HDRLEN + payload_size)

end Ping

namespace Traceroute

/-- The constant `PACKET_SIZE` of traceroute.h. -/
def PACKET_SIZE : Nat := 64
/-- The constant `MAX_HOPS` of traceroute.h. -/
def MAX_HOPS : Nat := 30
/-- The constant `TRIES_PER_HOP` of traceroute.h. -/
def TRIES_PER_HOP : Nat := 3

/-- The packet of `send_probe` before its checksum is computed (traceroute.c
lines 58-63): `type = ICMP_ECHO`, `code = 0`, `id = getpid()` and
`sequence = seq` stored in host order, all other bytes zero. -/
def fill_packet (be : Bool) (pid seq : Int) : List Nat :=
  [8, 0, 0, 0] ++ store16 be (toU16 pid) ++ store16 be (toU16 seq)
    ++ List.replicate (PACKET_SIZE - 8) 0

/-- The packet sent by `send_probe` (traceroute.c lines 58-64). -/
def probe_packet (be : Bool) (pid seq : Int) : List Nat :=
  set_checksum be (fill_packet be pid seq)
    (calculate_checksum be (fill_packet be pid seq))

end Traceroute

/-- The sum of the host-order words of a buffer, without reduction; a final
single byte counts as `last b`. Used to state what the summing loops compute. -/
def wordSum (be : Bool) (last : Nat → Nat) : List Nat → Nat
  | b0 :: b1 :: rest => word16 be b0 b1 + wordSum be last rest
  | [b] => last b
  | [] => 0

/-! ## The reference checksum of the specification -/

namespace Spec

/-- Following the specification (section 4.1): the consecutive 16-bit words of
the buffer, the first byte of each pair being the high byte when `be` is `true`
(network byte order) and the low byte otherwise; for an odd length the final
byte is the low byte of a zero-padded word. -/
def words (be : Bool) : List Nat → List Nat
  | b0 :: b1 :: rest => word16 be b0 b1 :: words be rest
  | [b] => [b]
  | [] => []

/-- Following the specification: the 32-bit sum of all the words. -/
def sum32 (be : Bool) (buf : List Nat) : Nat := (words be buf).sum % 2 ^ 32

/-- Following the specification: add the high 16 bits into the low 16 bits, again
and again until no carry remains (`fuel` bounds the number of rounds). -/
def fold_until : Nat → Nat → Nat
  | 0, acc => acc
  | fuel + 1, acc =>
    if acc / 65536 = 0 then acc else fold_until fuel (acc % 65536 + acc / 65536)

/-- The end-around-carry fold of an accumulator: every round with a carry
lowers the accumulator, so `acc` rounds are always enough. -/
def fold16 (acc : Nat) : Nat := fold_until acc acc

/-- Following the specification: the one's complement, on 16 bits, of the folded
sum of the words taken in the byte order `be`. The specification asks for
network byte order, `internet_checksum true`. -/
def internet_checksum (be : Bool) (buf : List Nat) : Nat :=
  65535 - fold16 (sum32 be buf)

end Spec

/-! ## Doubles -/

/-- The number of binary digits of `n` (`fuel` bounds the number of halvings;
`n` itself is always enough). -/
def bit_length : Nat → Nat → Nat
  | 0, _ => 0
  | fuel + 1, n => if n = 0 then 0 else bit_length fuel (n / 2) + 1

/-- The C type `double` (IEEE 754 binary64) is modelled by the rationals that it
represents, and every arithmetic operation of the code by the exact operation
followed by `round64`: rounding to the nearest number with a 53-bit significand,
ties to the even significand, with the spacing `2 ^ (-1074)` below `2 ^ (-1022)`.
Infinities are not modelled: the times of ping.c stay far below `2 ^ 1024`. -/
def round64 (x : ℚ) : ℚ :=
  if x = 0 then 0 else
    let n := x.num.natAbs
    let d := x.den
    let e0 : Int := (bit_length n n : Int) - (bit_length d d : Int)
    let e : Int := if d * 2 ^ e0.toNat ≤ n * 2 ^ (-e0).toNat then e0 else e0 - 1
    let p : Int := max (e - 52) (-1074)
    let num := n * 2 ^ (-p).toNat
    let den := d * 2 ^ p.toNat
    let q := num / den
    let r := num % den
    let m := if 2 * r < den then q else if den < 2 * r then q + 1
      else if q % 2 = 0 then q else q + 1
    mkRat ((if x.num < 0 then -1 else 1) * (m * 2 ^ p.toNat : Nat)) (2 ^ (-p).toNat)

/-! ## The probe loop of ping.c -/

namespace Ping

/-- The fields of `struct ping_options` that `main` reads after parsing
(`address` is only printed). -/
structure ping_options where
  type : Int
  count : Int
  flood : Bool
deriving DecidableEq

/-- The counters of `struct ping_stats` (`start_time` only feeds the elapsed time
that the summary prints). C `int` counters are integers; the `double` fields hold
the rationals that the doubles represent, see `round64`. -/
structure ping_stats where
  transmitted : Int
  received : Int
  min_rtt : ℚ
  max_rtt : ℚ
  total_rtt : ℚ
deriving DecidableEq

/-- The initializer of the global `stats` (ping.c lines 49-56). -/
def stats_init : ping_stats :=
  { transmitted := 0, received := 0, min_rtt := 999999, max_rtt := 0, total_rtt := 0 }

/-- The system calls whose failure `main` reports with `perror`. -/
inductive Call
  | sendto | poll | recvfrom
deriving DecidableEq

/-- The lines written by ping, on standard output or standard error, with the
values that fill their formats (the address and the elapsed time are left out). -/
inductive Line
  | banner (payload_size : Nat)
  | request_timeout (icmp_seq : Int)
  | reply (bytes : Int) (src : Nat) (icmp_seq : Int) (ttl : Nat) (rtt : ℚ)
  | statistics_header
  | statistics_counts (transmitted received : Int)
  | statistics_rtt (min avg max : ℚ)
  | perror (call : Call)
deriving DecidableEq

/-- The value `avg_rtt = stats.total_rtt / stats.received` of `display_statistics`
(ping.c line 75): a division of doubles, `received` being converted first. -/
def avg_rtt (stats : ping_stats) : ℚ :=
  round64 (stats.total_rtt / round64 stats.received)

/-- The lines printed by `display_statistics` (ping.c lines 67-78): the header,
the counters, and the `rtt min/avg/max` line when `stats.received > 0`. -/
def summary (stats : ping_stats) : List Line :=
  [Line.statistics_header, Line.statistics_counts stats.transmitted stats.received]
    ++ (if stats.received > 0 then
          [Line.statistics_rtt stats.min_rtt (avg_rtt stats) stats.max_rtt]
        else [])

/-- The four statistics updates made for an echo reply (ping.c lines 363-366 and
401-404); `stats.total_rtt += rtt` is an addition of doubles. -/
def record_reply (rtt : ℚ) (stats : ping_stats) : ping_stats :=
  { stats with
    received := stats.received + 1
    min_rtt := if rtt < stats.min_rtt then rtt else stats.min_rtt
    max_rtt := if rtt > stats.max_rtt then rtt else stats.max_rtt
    total_rtt := round64 (stats.total_rtt + rtt) }

/-- The points of `main` between which the signal handler can run. -/
inductive PC
  | loop_test
  | build_send
  | poll
  | recv
  | sleep
  | final_test
  | final_display
  | close
  | exited (status : Int)
deriving DecidableEq

/-- The globals of ping.c and the locals of `main` that outlive a statement,
with the output written so far and the datagrams passed to `sendto`. -/
structure State where
  keep_running : Bool
  stats : ping_stats
  seq : Int
  buffer : List Nat
  sendto_log : List (List Nat)
  out : List Line
  pc : PC
deriving DecidableEq

/-- What the environment answers to one statement of `main`: the results of
`sendto` and `poll`, the `POLLIN` bit of `revents`, the datagram delivered by
`recvfrom` (`none` when it returns a negative value) with its source address,
and the double `rtt` computed from the two `gettimeofday` calls (see `rtt_ms`),
in milliseconds. -/
structure Env where
  bytes_sent : Int
  poll_ret : Int
  pollin : Bool
  recv : Option (List Nat)
  src : Nat
  rtt : ℚ

/-- The parsed options, the value of `getpid()` and the host byte order. -/
structure Config where
  options : ping_options
  pid : Int
  be : Bool

/-- The function `display_statistics` (ping.c lines 59-81). -/
def display_statistics (s : State) : State :=
  { s with out := s.out ++ summary s.stats, keep_running := false }

/-- The function `handle_sigint` (ping.c lines 195-200). -/
def handle_sigint (s : State) : State :=
  display_statistics { s with keep_running := false }

/-- The buffer after a successful `recvfrom(sock, buffer, sizeof(buffer), ...)`:
the first bytes are replaced by the datagram, cut at `BUFFER_SIZE`. -/
def received_buffer (buffer data : List Nat) : List Nat :=
  data.take BUFFER_SIZE ++ buffer.drop (data.take BUFFER_SIZE).length

/-- The receive branch of the loop body (ping.c lines 339-418). -/
def recv_step (cfg : Config) (e : Env) (s : State) : State :=
  if cfg.options.type = 4 ∨ cfg.options.type = 6 then
    match e.recv with
    | none => { s with out := s.out ++ [Line.perror Call.recvfrom], pc := PC.exited 1 }
    | some data =>
      let bytes_received : Int := (data.take BUFFER_SIZE).length
      if bytes_received ≤ 0 then
        { s with out := s.out ++ [Line.perror Call.recvfrom], pc := PC.exited 1 }
      else
        let buffer := received_buffer s.buffer data
        if cfg.options.type = 4 then
          let ihl := buffer.getD 0 0 % 16
          let ttl := buffer.getD 8 0
          if buffer.getD (ihl * 4) 0 = ICMP_ECHOREPLY then
            { s with
              buffer := buffer
              stats := record_reply e.rtt s.stats
              out := s.out ++ [Line.reply (bytes_received - ihl * 4) e.src (s.seq + 1) ttl e.rtt]
              seq := s.seq + 1
              pc := PC.sleep }
          else { s with buffer := buffer, pc := PC.sleep }
        else
          if buffer.getD 0 0 = ICMP6_ECHO_REPLY then
            { s with
              buffer := buffer
              stats := record_reply e.rtt s.stats
              out := s.out ++ [Line.reply bytes_received e.src (s.seq + 1) 64 e.rtt]
              seq := s.seq + 1
              pc := PC.sleep }
          else { s with buffer := buffer, pc := PC.sleep }
  else { s with pc := PC.sleep }

/-- One statement group of `main` from the loop on (ping.c lines 265-433),
given the answer of the environment. -/
def step (cfg : Config) (e : Env) (s : State) : State :=
  match s.pc with
  | PC.loop_test =>
    if s.keep_running ∧ (cfg.options.count = -1 ∨ s.stats.transmitted < cfg.options.count) then
      { s with pc := PC.build_send }
    else { s with pc := PC.final_test }
  | PC.build_send =>
    let buffer :=
      if cfg.options.type = 4 then build_v4 cfg.be cfg.pid s.seq
      else if cfg.options.type = 6 then build_v6 cfg.pid s.seq
      else List.replicate BUFFER_SIZE 0
    let s1 := { s with
      buffer := buffer
      sendto_log :=
        if cfg.options.type = 4 ∨ cfg.options.type = 6 then
          s.sendto_log ++ [buffer.take (ICMP_HDRLEN + payload_size)]
        else s.sendto_log }
    if e.bytes_sent ≤ 0 then
      { s1 with out := s.out ++ [Line.perror Call.sendto], pc := PC.exited 1 }
    else
      { s1 with stats := { s.stats with transmitted := s.stats.transmitted + 1 }, pc := PC.poll }
  | PC.poll =>
    if e.poll_ret = 0 then
      { s with out := s.out ++ [Line.request_timeout (s.seq + 1)], pc := PC.loop_test }
    else if e.poll_ret < 0 then
      { s with out := s.out ++ [Line.perror Call.poll], pc := PC.exited 1 }
    else if e.pollin then { s with pc := PC.recv }
    else { s with pc := PC.sleep }
  | PC.recv => recv_step cfg e s
  | PC.sleep => { s with pc := PC.loop_test }
  | PC.final_test =>
    if s.keep_running then { s with pc := PC.final_display } else { s with pc := PC.close }
  | PC.final_display => { display_statistics s with pc := PC.close }
  | PC.close => { s with pc := PC.exited 0 }
  | PC.exited _ => s

/-- What happens next: a statement group of `main`, or the delivery of SIGINT. -/
inductive Action
  | main (e : Env)
  | sigint

/-- One action on the state; no signal is delivered once `main` has returned. -/
def exec (cfg : Config) (s : State) : Action → State
  | Action.main e => step cfg e s
  | Action.sigint =>
    match s.pc with
    | PC.exited _ => s
    | _ => handle_sigint s

/-- A run of ping from a given state. -/
def run (cfg : Config) (acts : List Action) (s : State) : State :=
  acts.foldl (exec cfg) s

/-- The state of `main` when it reaches the loop (ping.c lines 234-262); the
content of `buffer` is not read before the first `memset`. -/
def init : State :=
  { keep_running := true, stats := stats_init, seq := 0,
    buffer := List.replicate BUFFER_SIZE 0,
    sendto_log := [], out := [Line.banner payload_size], pc := PC.loop_test }

/-- The points inside the body of the loop. -/
def in_body : PC → Bool
  | PC.build_send | PC.poll | PC.recv | PC.sleep => true
  | _ => false

/-- A statement group of the loop body, if `main` is inside the body. -/
def body_step (cfg : Config) (e : Env) (s : State) : State :=
  if in_body s.pc then step cfg e s else s

/-- One pass through the loop body: from its first statement to the next test of
the loop condition, or to the `return` that leaves `main`. -/
def loop_body (cfg : Config) (e : Env) (s : State) : State :=
  body_step cfg e (body_step cfg e (body_step cfg e (body_step cfg e s)))

/-- The points of the loop, and the test `if (keep_running)` that follows it. -/
def before_final_display : PC → Bool
  | PC.loop_test | PC.build_send | PC.poll | PC.recv | PC.sleep | PC.final_test => true
  | _ => false

/-- The number of executions of `display_statistics`: each prints one header. -/
def displays (s : State) : Nat := s.out.count Line.statistics_header

end Ping

/-! ## The TTL sweep of traceroute.c -/

namespace Traceroute

/-- What happens to one try: `send_probe` fails, `recvfrom` returns no packet,
or a packet arrives from `src` after `rtt` milliseconds. -/
inductive TryOutcome
  | send_failed
  | no_reply
  | reply (src : Nat) (rtt : ℚ)
deriving DecidableEq

/-- The locals of the body of the TTL loop (traceroute.c lines 139-143);
`recv_addr` is `none` until `recvfrom` fills it, `times` holds the entries
`times[0]` to `times[replies - 1]`. -/
structure HopState where
  recv_addr : Option Nat
  reached_dest : Bool
  replies : Nat
  times : List ℚ
deriving DecidableEq

/-- The locals at the start of a hop. -/
def hop_init : HopState :=
  { recv_addr := none, reached_dest := false, replies := 0, times := [] }

/-- One try (traceroute.c lines 147-165). -/
def try_step (dest : Nat) (o : TryOutcome) (h : HopState) : HopState :=
  match o with
  | TryOutcome.send_failed => h
  | TryOutcome.no_reply => h
  | TryOutcome.reply src rtt =>
    { recv_addr := some src
      reached_dest := if src = dest then true else h.reached_dest
      replies := h.replies + 1
      times := h.times ++ [rtt] }

/-- The tries of one hop (traceroute.c lines 146-166); `net ttl try` is the
outcome of try number `try` at this TTL. -/
def hop (dest : Nat) (net : Nat → Nat → TryOutcome) (ttl : Nat) : HopState :=
  (List.range TRIES_PER_HOP).foldl (fun h t => try_step dest (net ttl t) h) hop_init

/-- One slot of a hop line: a time or the marker `*`. -/
inductive Slot
  | time (rtt : ℚ)
  | star
deriving DecidableEq

/-- The line printed for a hop: with an address and three slots, or `* * *`. -/
inductive HopLine
  | answered (ttl : Nat) (addr : Option Nat) (slots : List Slot)
  | unanswered (ttl : Nat)
deriving DecidableEq

/-- The hop number at the start of a line. -/
def HopLine.ttl : HopLine → Nat
  | HopLine.answered ttl _ _ => ttl
  | HopLine.unanswered ttl => ttl

/-- The function `print_probe_results` (traceroute.c lines 69-99). -/
def print_probe_results (ttl : Nat) (recv_addr : Option Nat) (replies : Nat)
    (times : List ℚ) : HopLine :=
  if replies > 0 then
    HopLine.answered ttl recv_addr
      ((List.range TRIES_PER_HOP).map fun i =>
        if i < replies then Slot.time (times.getD i 0) else Slot.star)
  else HopLine.unanswered ttl

/-- A call of `send_probe`: the TTL set on the socket and the sequence number. -/
structure Probe where
  ttl : Nat
  seq : Int
deriving DecidableEq

/-- The hop lines printed and the probes passed to `send_probe` so far. -/
structure Trace where
  lines : List HopLine
  probes : List Probe
deriving DecidableEq

/-- The loop `for (ttl = 1; ttl <= MAX_HOPS; ttl++)` (traceroute.c lines 136-173),
by recursion on the number `MAX_HOPS + 1 - ttl` of values of `ttl` left; every
try calls `send_probe` with `seq++`. -/
def ttl_loop (dest : Nat) (net : Nat → Nat → TryOutcome) :
    Nat → Nat → Int → Trace → Trace
  | 0, _, _, tr => tr
  | left + 1, ttl, seq, tr =>
    let h := hop dest net ttl
    let tr1 : Trace :=
      { lines := tr.lines ++ [print_probe_results ttl h.recv_addr h.replies h.times]
        probes := tr.probes ++
          (List.range TRIES_PER_HOP).map fun i => { ttl := ttl, seq := seq + i } }
    if h.reached_dest then tr1
    else ttl_loop dest net left (ttl + 1) (seq + TRIES_PER_HOP) tr1

/-- The sweep of `main`: `seq` starts at 1 and `ttl` at 1. -/
def sweep (dest : Nat) (net : Nat → Nat → TryOutcome) : Trace :=
  ttl_loop dest net MAX_HOPS 1 1 { lines := [], probes := [] }

end Traceroute

/-! ## Invariants and sample inputs -/

/-- The counters never cross: `received ≤ transmitted`, strictly between the
increment of `transmitted` and the receive branch. -/
def Ping.CountInv (s : Ping.State) : Prop :=
  s.stats.received ≤ s.stats.transmitted ∧
    (s.pc = Ping.PC.poll ∨ s.pc = Ping.PC.recv → s.stats.received < s.stats.transmitted)

/-- An IPv4 run with a bounded count on a little-endian host. -/
def Ping.cfg_v4 (count : Int) : Ping.Config :=
  { options := { type := 4, count := count, flood := false }, pid := 4660, be := false }

/-- An environment in which the probe is sent and `poll` times out. -/
def Ping.env_timeout : Ping.Env :=
  { bytes_sent := 72, poll_ret := 0, pollin := false, recv := none, src := 0, rtt := 0 }

/-- An environment in which the probe is sent and `data` arrives from `src`
after `rtt` milliseconds. -/
def Ping.env_recv (data : List Nat) (src : Nat) (rtt : ℚ) : Ping.Env :=
  { bytes_sent := 72, poll_ret := 1, pollin := true, recv := some data, src := src, rtt := rtt }

/-- An IPv4 datagram: a 20-byte IP header with TTL 57 in front of an ICMP header
of the given type and identifier bytes, sequence number 1. -/
def Ping.ipv4_icmp (type id_hi id_lo : Nat) : List Nat :=
  [69, 0, 0, 28, 0, 0, 0, 0, 57, 1, 0, 0, 10, 0, 0, 2, 10, 0, 0, 1]
    ++ [type, 0, 0, 0, id_hi, id_lo, 0, 1]

/-- The network in which every try at TTL 1 gets no reply and every try at a
higher TTL is answered from address 9 after 4 milliseconds. -/
def Traceroute.net_two_hops : Nat → Nat → Traceroute.TryOutcome :=
  fun ttl _ => if ttl < 2 then Traceroute.TryOutcome.no_reply
    else Traceroute.TryOutcome.reply 9 4

/-- An action of `main` in which the probe is sent and `poll` times out. -/
def Ping.IsTimeout (a : Ping.Action) : Prop :=
  ∃ e, a = Ping.Action.main e ∧ 0 < e.bytes_sent ∧ e.poll_ret = 0

/-- The sequence numbers passed to `send_probe` increase, and stay below `seq`. -/
def Traceroute.SeqInv (tr : Traceroute.Trace) (seq : Int) : Prop :=
  List.Pairwise (fun a b => a < b) (tr.probes.map Traceroute.Probe.seq) ∧
    ∀ x ∈ tr.probes.map Traceroute.Probe.seq, x < seq

/-- The number of statement groups `main` still runs once `keep_running` is 0. -/
def Ping.steps_left : Ping.PC → Nat
  | Ping.PC.build_send => 7
  | Ping.PC.poll => 6
  | Ping.PC.recv => 5
  | Ping.PC.sleep => 4
  | Ping.PC.loop_test => 3
  | Ping.PC.final_test => 2
  | Ping.PC.final_display => 2
  | Ping.PC.close => 1
  | Ping.PC.exited _ => 0

/-- Before any summary: the flag is set and `main` has not reached its end. -/
def Ping.NoSummaryYet (s : Ping.State) : Prop :=
  (s.keep_running = true ∧ Ping.displays s = 0 ∧ s.pc ≠ Ping.PC.close ∧
      s.pc ≠ Ping.PC.exited 0) ∨
    (Ping.displays s = 1 ∧ (s.pc = Ping.PC.close ∨ s.pc = Ping.PC.exited 0)) ∨
    (Ping.displays s = 0 ∧ s.pc = Ping.PC.exited 1)

/-- After the handler has run: the flag is cleared and one summary is printed. -/
def Ping.Interrupted (s : Ping.State) : Prop :=
  s.keep_running = false ∧ Ping.displays s = 1 ∧ s.pc ≠ Ping.PC.final_display

/-! ## Hop lines, try by try -/

namespace Traceroute

/-- The line that the TTL loop prints for a hop (traceroute.c line 168):
`print_probe_results(ttl, &recv_addr, replies, times)` on the locals left by the
three tries. -/
def hop_line (dest : Nat) (net : Nat → Nat → TryOutcome) (ttl : Nat) : HopLine :=
  print_probe_results ttl (hop dest net ttl).recv_addr (hop dest net ttl).replies
    (hop dest net ttl).times

/-- The three slots of a printed line; the line `* * *` has three markers. -/
def HopLine.slots : HopLine → List Slot
  | HopLine.answered _ _ slots => slots
  | HopLine.unanswered _ => [Slot.star, Slot.star, Slot.star]

/-- The address printed on a line, if any. -/
def HopLine.addr : HopLine → Option Nat
  | HopLine.answered _ addr _ => addr
  | HopLine.unanswered _ => none

/-- The outcomes of the tries of a hop, in try order. -/
def tries (net : Nat → Nat → TryOutcome) (ttl : Nat) : List TryOutcome :=
  (List.range TRIES_PER_HOP).map (net ttl)

/-- Following the claim on per-try reporting: the slot of a try shows its
round-trip time when the try was answered and the marker `*` when it was not. -/
def per_try_slot : TryOutcome → Slot
  | TryOutcome.reply _ rtt => Slot.time rtt
  | _ => Slot.star

/-- The round-trip times of the answered tries, in try order. -/
def answered_rtts : List TryOutcome → List ℚ
  | [] => []
  | TryOutcome.reply _ rtt :: os => rtt :: answered_rtts os
  | _ :: os => answered_rtts os

/-- The source addresses of the answered tries, in try order. -/
def answered_srcs : List TryOutcome → List Nat
  | [] => []
  | TryOutcome.reply src _ :: os => src :: answered_srcs os
  | _ :: os => answered_srcs os

/-- A network in which only the second try of every hop is answered, from
address 7 after 5 milliseconds. -/
def net_second_try_only : Nat → Nat → TryOutcome :=
  fun _ t => if t = 1 then TryOutcome.reply 7 5 else TryOutcome.no_reply

/-- A network in which the first try of every hop is answered from address 7,
the second from address 8, and the third is not answered. -/
def net_two_routers : Nat → Nat → TryOutcome :=
  fun _ t => if t = 0 then TryOutcome.reply 7 4
    else if t = 1 then TryOutcome.reply 8 6 else TryOutcome.no_reply

/-- A network in which the first hop is answered by the router 7, the second hop
is silent, and every later hop is answered by the destination 9. -/
def net_silent_second_hop : Nat → Nat → TryOutcome :=
  fun ttl _ => if ttl = 1 then TryOutcome.reply 7 3
    else if ttl = 2 then TryOutcome.no_reply else TryOutcome.reply 9 8

end Traceroute

/-! ## The start of ping's `main` -/

namespace Ping

/-- The value `EPERM` of errno.h. -/
def EPERM : Int := 1
/-- The value `EACCES` of errno.h. -/
def EACCES : Int := 13

/-- What the system answers while the socket is created: the results of
`inet_pton` for the two families, the result of `socket`, and `errno` after it. -/
structure SocketEnv where
  inet_pton4 : Int
  inet_pton6 : Int
  socket_ret : Int
  errno : Int

/-- The lines written on standard error before the loop. -/
inductive StartLine
  | invalid_ipv4
  | invalid_ipv6
  | invalid_ip_type
  | socket_creation_failed
  | perror_socket
  | sudo_hint
deriving DecidableEq

/-- The function `create_socket` (ping.c lines 91-138): its return value and the
lines it prints. Every error path ends in `return 1`. -/
def create_socket (ip_type : Int) (env : SocketEnv) : Int × List StartLine :=
  if ip_type = 4 then
    if env.inet_pton4 ≤ 0 then (1, [StartLine.invalid_ipv4])
    else if env.socket_ret < 0 then (1, [StartLine.socket_creation_failed])
    else (env.socket_ret, [])
  else if ip_type = 6 then
    if env.inet_pton6 ≤ 0 then (1, [StartLine.invalid_ipv6])
    else if env.socket_ret < 0 then (1, [StartLine.socket_creation_failed])
    else (env.socket_ret, [])
  else (1, [StartLine.invalid_ip_type])

/-- How the start of `main` ends: with a `return`, or by reaching the loop with
the descriptor `sock`. -/
inductive Startup
  | returned (status : Int) (err : List StartLine)
  | entered_loop (sock : Int) (err : List StartLine)
deriving DecidableEq

/-- The start of `main` once the arguments are parsed (ping.c lines 219-232):
the call of `create_socket` and the test `if (sock < 0)` with its hint. -/
def main_startup (options : ping_options) (env : SocketEnv) : Startup :=
  let sock := (create_socket options.type env).1
  let err := (create_socket options.type env).2
  if sock < 0 then
    Startup.returned 1
      (err ++ [StartLine.perror_socket]
        ++ (if env.errno = EACCES ∨ env.errno = EPERM then [StartLine.sudo_hint] else []))
  else Startup.entered_loop sock err

/-- An address that `inet_pton` rejects, with `socket` ready to succeed. -/
def env_bad_address : SocketEnv :=
  { inet_pton4 := 0, inet_pton6 := 0, socket_ret := 3, errno := 0 }

/-- A valid address and a `socket` call refused for lack of privilege. -/
def env_no_privilege : SocketEnv :=
  { inet_pton4 := 1, inet_pton6 := 1, socket_ret := -1, errno := EPERM }

/-- The body of the fold loop (ping.c line 460):
`total_sum = (total_sum & 0xFFFF) + (total_sum >> 16)`. -/
def fold_body (total_sum : Nat) : Nat :=
  (total_sum % 65536 + total_sum / 65536) % 2 ^ 32

end Ping

/-! ## Checksum lemmas -/

theorem word16_lt (be : Bool) {b0 b1 : Nat} (h0 : b0 < 256) (h1 : b1 < 256) :
    word16 be b0 b1 < 65536 := by
  unfold word16; split <;> omega

theorem wordSum_le (be : Bool) (last : Nat → Nat) (hl : ∀ b, b < 256 → last b < 65536) :
    ∀ (n : Nat) (buf : List Nat), buf.length ≤ 2 * n → IsBytes buf →
      wordSum be last buf ≤ 65535 * n
  | n, [], _, _ => by simp [wordSum]
  | n, [b], hn, hb => by
    have := hl b (hb b (by simp))
    simp only [wordSum]
    simp at hn
    omega
  | n, b0 :: b1 :: rest, hn, hb => by
    have h0 : b0 < 256 := hb b0 (by simp)
    have h1 : b1 < 256 := hb b1 (by simp)
    have hw := word16_lt be h0 h1
    have hr : IsBytes rest := fun b hm => hb b (by simp [hm])
    simp only [List.length_cons] at hn
    obtain ⟨m, rfl⟩ : ∃ m, n = m + 1 := ⟨n - 1, by omega⟩
    have := wordSum_le be last hl m rest (by omega) hr
    simp only [wordSum]
    omega

theorem Ping.sum_loop_eq (be : Bool) : ∀ (buf : List Nat) (acc : Nat), acc < 2 ^ 32 →
    Ping.sum_loop be buf acc = (acc + wordSum be (fun b => b) buf) % 2 ^ 32
  | [], acc, h => by simp [Ping.sum_loop, wordSum]; omega
  | [b], acc, _ => by simp [Ping.sum_loop, wordSum]
  | b0 :: b1 :: rest, acc, _ => by
    rw [Ping.sum_loop, Ping.sum_loop_eq be rest _ (Nat.mod_lt _ (by norm_num))]
    simp only [wordSum]
    omega

theorem Traceroute.sum_loop_eq_tr (be : Bool) : ∀ (buf : List Nat) (acc : Nat), acc < 2 ^ 32 →
    Traceroute.sum_loop be buf acc = (acc + wordSum be (fun b => word16 be b 0) buf) % 2 ^ 32
  | [], acc, h => by simp [Traceroute.sum_loop, wordSum]; omega
  | [b], acc, _ => by simp [Traceroute.sum_loop, wordSum]
  | b0 :: b1 :: rest, acc, _ => by
    rw [Traceroute.sum_loop, Traceroute.sum_loop_eq_tr be rest _ (Nat.mod_lt _ (by norm_num))]
    simp only [wordSum]
    omega

/-- Adding the high half of a sum to its low half keeps it modulo `0xFFFF`. -/
theorem fold_step_mod (s : Nat) : (s % 65536 + s / 65536) % 65535 = s % 65535 := by
  have h : s = (s % 65536 + s / 65536) + 65535 * (s / 65536) := by omega
  conv_rhs => rw [h]
  rw [Nat.add_mul_mod_self_left]

/-- One unfolding of the fold loop when a carry remains. -/
theorem Ping.fold_loop_carry {s : Nat} (h : 65536 ≤ s) :
    Ping.fold_loop s = Ping.fold_loop ((s % 65536 + s / 65536) % 2 ^ 32) := by
  rw [Ping.fold_loop]
  have : s / 65536 ≠ 0 := by omega
  simp [this]

/-- The fold loop stops on a value without carry. -/
theorem Ping.fold_loop_done {s : Nat} (h : s < 65536) : Ping.fold_loop s = s := by
  rw [Ping.fold_loop]
  have : s / 65536 = 0 := by omega
  simp [this]

/-- What the fold loop computes on a 32-bit sum: a 16-bit value congruent to
the sum modulo `0xFFFF`, zero only for a zero sum. -/
theorem Ping.fold_loop_spec : ∀ (s : Nat), s < 2 ^ 32 →
    Ping.fold_loop s < 65536 ∧ Ping.fold_loop s % 65535 = s % 65535 ∧
      (Ping.fold_loop s = 0 ↔ s = 0) := by
  intro s
  induction s using Nat.strong_induction_on with
  | _ s ih =>
    intro hs
    by_cases h : s < 65536
    · rw [Ping.fold_loop_done h]
      exact ⟨h, rfl, Iff.rfl⟩
    · have hge : 65536 ≤ s := by omega
      rw [Ping.fold_loop_carry hge]
      have hsmall : (s % 65536 + s / 65536) % 2 ^ 32 = s % 65536 + s / 65536 :=
        Nat.mod_eq_of_lt (by omega)
      rw [hsmall]
      obtain ⟨h1, h2, h3⟩ := ih (s % 65536 + s / 65536) (by omega) (by omega)
      refine ⟨h1, ?_, ?_⟩
      · rw [h2, fold_step_mod]
      · rw [h3]; omega

/-- What the two fold statements compute on a 32-bit sum: the complement of a
16-bit value with the same three properties. -/
theorem Traceroute.fold_twice_spec (s : Nat) (hs : s < 2 ^ 32) :
    ∃ f, Traceroute.fold_twice s = 65535 - f ∧ f < 65536 ∧ f % 65535 = s % 65535 ∧
      (f = 0 ↔ s = 0) := by
  have hmod := fold_step_mod s
  by_cases ht : s % 65536 + s / 65536 < 65536
  · refine ⟨s % 65536 + s / 65536, ?_, ht, hmod, by omega⟩
    clear hmod
    have h1 : (s / 65536 + s % 65536) % 2 ^ 32 = s % 65536 + s / 65536 := by
      rw [Nat.mod_eq_of_lt (by omega)]; omega
    have h2 : (s % 65536 + s / 65536) / 65536 = 0 := by omega
    have h3 : (s % 65536 + s / 65536 + 0) % 2 ^ 32 = s % 65536 + s / 65536 :=
      Nat.mod_eq_of_lt (by omega)
    simp only [Traceroute.fold_twice, h1, h2, h3, Nat.reducePow]
    omega
  · refine ⟨s % 65536 + s / 65536 - 65535, ?_, by omega, ?_, by omega⟩
    · clear hmod
      have h1 : (s / 65536 + s % 65536) % 2 ^ 32 = s % 65536 + s / 65536 := by
        rw [Nat.mod_eq_of_lt (by omega)]; omega
      have h2 : (s % 65536 + s / 65536) / 65536 = 1 := by omega
      have h3 : (s % 65536 + s / 65536 + 1) % 2 ^ 32 = s % 65536 + s / 65536 + 1 :=
        Nat.mod_eq_of_lt (by omega)
      simp only [Traceroute.fold_twice, h1, h2, h3, Nat.reducePow]
      omega
    · rw [← hmod]
      have h : s % 65536 + s / 65536 = (s % 65536 + s / 65536 - 65535) + 65535 * 1 := by omega
      conv_rhs => rw [h]
      rw [Nat.add_mul_mod_self_left]

/-- The ping checksum as the complement of a folded word sum. -/
theorem Ping.calculate_checksum_spec (be : Bool) (buf : List Nat)
    (hS : wordSum be (fun b => b) buf < 2 ^ 32) :
    ∃ f, Ping.calculate_checksum be buf = 65535 - f ∧ f < 65536 ∧
      f % 65535 = wordSum be (fun b => b) buf % 65535 ∧
      (f = 0 ↔ wordSum be (fun b => b) buf = 0) := by
  obtain ⟨h1, h2, h3⟩ := Ping.fold_loop_spec _ hS
  refine ⟨Ping.fold_loop (wordSum be (fun b => b) buf), ?_, h1, h2, h3⟩
  unfold Ping.calculate_checksum
  rw [Ping.sum_loop_eq be buf 0 (by norm_num), Nat.zero_add, Nat.mod_eq_of_lt hS,
    Nat.mod_eq_of_lt h1]

/-- The traceroute checksum as the complement of a folded word sum. -/
theorem Traceroute.checksum_spec_tr (be : Bool) (buf : List Nat)
    (hS : wordSum be (fun b => word16 be b 0) buf < 2 ^ 32) :
    ∃ f, Traceroute.calculate_checksum be buf = 65535 - f ∧ f < 65536 ∧
      f % 65535 = wordSum be (fun b => word16 be b 0) buf % 65535 ∧
      (f = 0 ↔ wordSum be (fun b => word16 be b 0) buf = 0) := by
  unfold Traceroute.calculate_checksum
  rw [Traceroute.sum_loop_eq_tr be buf 0 (by norm_num), Nat.zero_add, Nat.mod_eq_of_lt hS]
  exact Traceroute.fold_twice_spec _ hS

/-- Reading back a stored 16-bit value gives the value. -/
theorem word16_store16 (be : Bool) {v : Nat} (hv : v < 65536) :
    word16 be ((store16 be v).getD 0 0) ((store16 be v).getD 1 0) = v := by
  cases be <;> simp [word16, store16] <;> omega

/-- The checksum store on a buffer of at least four bytes. -/
theorem set_checksum_cons (be : Bool) (b0 b1 b2 b3 v : Nat) (rest : List Nat) :
    set_checksum be (b0 :: b1 :: b2 :: b3 :: rest) v
      = b0 :: b1 :: (store16 be v).getD 0 0 :: (store16 be v).getD 1 0 :: rest := rfl

/-- A buffer of at least four bytes whose checksum field is zero. -/
theorem zero_field_shape : ∀ (buf : List Nat), 4 ≤ buf.length → buf.getD 2 0 = 0 →
    buf.getD 3 0 = 0 → ∃ b0 b1 rest, buf = b0 :: b1 :: 0 :: 0 :: rest
  | b0 :: b1 :: b2 :: b3 :: rest, _, h2, h3 => by
    simp at h2 h3
    exact ⟨b0, b1, rest, by rw [h2, h3]⟩
  | [], h, _, _ => by simp at h
  | [_], h, _, _ => by simp at h
  | [_, _], h, _, _ => by simp at h
  | [_, _, _], h, _, _ => by simp at h

/-- Storing `v` into a zero checksum field adds `v` to the word sum. -/
theorem wordSum_set_checksum (be : Bool) (last : Nat → Nat) (b0 b1 : Nat) (rest : List Nat)
    {v : Nat} (hv : v < 65536) :
    wordSum be last (set_checksum be (b0 :: b1 :: 0 :: 0 :: rest) v)
      = wordSum be last (b0 :: b1 :: 0 :: 0 :: rest) + v := by
  rw [set_checksum_cons]
  simp only [wordSum, word16_store16 be hv]
  have : word16 be 0 0 = 0 := by cases be <;> rfl
  omega

/-- The arithmetic core of self-verification: if `f` is the fold of `S` and `g`
the fold of `S + (65535 - f)`, then `g` is `0xFFFF`. -/
theorem verify_core {S f g : Nat} (hf : f < 65536) (hfm : f % 65535 = S % 65535)
    (hf0 : f = 0 ↔ S = 0) (hg : g < 65536)
    (hgm : g % 65535 = (S + (65535 - f)) % 65535)
    (hg0 : g = 0 ↔ S + (65535 - f) = 0) : 65535 - g = 0 := by
  have h1 : (S + (65535 - f)) % 65535 = (f + (65535 - f)) % 65535 :=
    Nat.ModEq.add_right _ hfm.symm
  have h2 : f + (65535 - f) = 65535 := by omega
  rw [h2, Nat.mod_self] at h1
  rw [h1] at hgm
  have h3 : g ≠ 0 := by
    intro h
    have := hg0.1 h
    have := hf0.2 (by omega)
    omega
  omega

/-- Self-verification of ping's checksum on a buffer with a zero checksum field. -/
theorem Ping.self_verify (be : Bool) (buf : List Nat) (hb : IsBytes buf)
    (h4 : 4 ≤ buf.length) (hmax : buf.length ≤ 1024)
    (h2 : buf.getD 2 0 = 0) (h3 : buf.getD 3 0 = 0) :
    Ping.calculate_checksum be (set_checksum be buf (Ping.calculate_checksum be buf)) = 0 := by
  have hS := wordSum_le be (fun b => b) (fun b h => by show b < 65536; omega) 512 buf
    (by omega) hb
  obtain ⟨b0, b1, rest, rfl⟩ := zero_field_shape buf h4 h2 h3
  obtain ⟨f, hc, hf, hfm, hf0⟩ := Ping.calculate_checksum_spec be _
    (lt_of_le_of_lt hS (by norm_num))
  rw [hc]
  have hS2 := wordSum_set_checksum be (fun b => b) b0 b1 rest (v := 65535 - f) (by omega)
  obtain ⟨g, hc2, hg, hgm, hg0⟩ := Ping.calculate_checksum_spec be
    (set_checksum be (b0 :: b1 :: 0 :: 0 :: rest) (65535 - f)) (by rw [hS2]; omega)
  rw [hc2]
  rw [hS2] at hgm hg0
  exact verify_core hf hfm hf0 hg hgm hg0

/-- Self-verification of traceroute's checksum on a buffer with a zero checksum field. -/
theorem Traceroute.self_verify_tr (be : Bool) (buf : List Nat) (hb : IsBytes buf)
    (h4 : 4 ≤ buf.length) (hmax : buf.length ≤ 1024)
    (h2 : buf.getD 2 0 = 0) (h3 : buf.getD 3 0 = 0) :
    Traceroute.calculate_checksum be
      (set_checksum be buf (Traceroute.calculate_checksum be buf)) = 0 := by
  have hS := wordSum_le be (fun b => word16 be b 0)
    (fun b h => word16_lt be h (by norm_num)) 512 buf (by omega) hb
  obtain ⟨b0, b1, rest, rfl⟩ := zero_field_shape buf h4 h2 h3
  obtain ⟨f, hc, hf, hfm, hf0⟩ := Traceroute.checksum_spec_tr be _
    (lt_of_le_of_lt hS (by norm_num))
  rw [hc]
  have hS2 := wordSum_set_checksum be (fun b => word16 be b 0) b0 b1 rest
    (v := 65535 - f) (by omega)
  obtain ⟨g, hc2, hg, hgm, hg0⟩ := Traceroute.checksum_spec_tr be
    (set_checksum be (b0 :: b1 :: 0 :: 0 :: rest) (65535 - f)) (by rw [hS2]; omega)
  rw [hc2]
  rw [hS2] at hgm hg0
  exact verify_core hf hfm hf0 hg hgm hg0

theorem toU16_lt (x : Int) : toU16 x < 65536 := by
  unfold toU16; omega

theorem isBytes_htonsBytes (x : Int) : IsBytes (htonsBytes x) := by
  have := toU16_lt x
  intro b hb
  simp [htonsBytes] at hb
  omega

theorem isBytes_store16 (be : Bool) (v : Nat) : IsBytes (store16 be v) := by
  intro b hb
  cases be <;> simp [store16] at hb <;> omega

theorem isBytes_append {a b : List Nat} (ha : IsBytes a) (hb : IsBytes b) :
    IsBytes (a ++ b) := by
  intro x hx
  rcases List.mem_append.1 hx with h | h
  · exact ha x h
  · exact hb x h

/-- The first 72 bytes of the buffer filled by ping's `main`. -/
theorem Ping.take_fill_buffer (type : Nat) (pid seq : Int) :
    (Ping.fill_buffer type pid seq).take (Ping.ICMP_HDRLEN + Ping.payload_size)
      = [type, 0, 0, 0] ++ htonsBytes pid ++ htonsBytes seq ++ Ping.msg ++ [0] := rfl

/-- The datagram of an IPv4 probe is the 72 filled bytes with their checksum stored. -/
theorem Ping.echo_request_eq (be : Bool) (pid seq : Int) :
    Ping.echo_request be pid seq
      = set_checksum be ([Ping.ICMP_ECHO, 0, 0, 0] ++ htonsBytes pid ++ htonsBytes seq
          ++ Ping.msg ++ [0])
        (Ping.calculate_checksum be ([Ping.ICMP_ECHO, 0, 0, 0] ++ htonsBytes pid
          ++ htonsBytes seq ++ Ping.msg ++ [0])) := by
  unfold Ping.echo_request Ping.build_v4
  simp only [Ping.take_fill_buffer]
  rfl

/-- The packet of `send_probe` has a zero checksum field before the store. -/
theorem Traceroute.fill_packet_shape (be : Bool) (pid seq : Int) :
    IsBytes (Traceroute.fill_packet be pid seq) ∧
      (Traceroute.fill_packet be pid seq).length = 64 ∧
      (Traceroute.fill_packet be pid seq).getD 2 0 = 0 ∧
      (Traceroute.fill_packet be pid seq).getD 3 0 = 0 := by
  refine ⟨?_, ?_, rfl, rfl⟩
  · unfold Traceroute.fill_packet
    refine isBytes_append (isBytes_append (isBytes_append ?_ (isBytes_store16 _ _))
      (isBytes_store16 _ _)) ?_
    · intro b hb; simp at hb; omega
    · intro b hb; simp at hb; omega
  · cases be <;> simp [Traceroute.fill_packet, store16, Traceroute.PACKET_SIZE]

/-- The store of the checksum keeps the length of the buffer. -/
theorem length_set_checksum (be : Bool) (buf : List Nat) (v : Nat) :
    (set_checksum be buf v).length = buf.length := by
  simp [set_checksum]

/-- C1. Checksum self-verification. For every buffer of `N` bytes, `4 ≤ N ≤ 1024`
(even or odd), whose checksum field (offsets 2 and 3) is zero, storing the value
returned by `calculate_checksum` into that field in host order and computing
`calculate_checksum` again over the same bytes returns 0, for ping's function and
for traceroute's, on either host byte order. In particular this holds for the
72-byte IPv4 echo request of ping's `main` and the 64-byte packet of `send_probe`,
for every pid and sequence number. -/
theorem checksum_self_verifying :
    (∀ (be : Bool) (buf : List Nat), IsBytes buf → 4 ≤ buf.length → buf.length ≤ 1024 →
      buf.getD 2 0 = 0 → buf.getD 3 0 = 0 →
      Ping.calculate_checksum be (set_checksum be buf (Ping.calculate_checksum be buf)) = 0 ∧
      Traceroute.calculate_checksum be
        (set_checksum be buf (Traceroute.calculate_checksum be buf)) = 0) ∧
    (∀ (be : Bool) (pid seq : Int),
      (Ping.echo_request be pid seq).length = 72 ∧
      Ping.calculate_checksum be (Ping.echo_request be pid seq) = 0) ∧
    (∀ (be : Bool) (pid seq : Int),
      (Traceroute.probe_packet be pid seq).length = 64 ∧
      Traceroute.calculate_checksum be (Traceroute.probe_packet be pid seq) = 0) := by
  refine ⟨fun be buf hb h4 hmax h2 h3 =>
    ⟨Ping.self_verify be buf hb h4 hmax h2 h3, Traceroute.self_verify_tr be buf hb h4 hmax h2 h3⟩,
    fun be pid seq => ?_, fun be pid seq => ?_⟩
  · rw [Ping.echo_request_eq]
    have hlen : ([Ping.ICMP_ECHO, 0, 0, 0] ++ htonsBytes pid ++ htonsBytes seq
        ++ Ping.msg ++ [0]).length = 72 := rfl
    refine ⟨by rw [length_set_checksum, hlen], ?_⟩
    refine Ping.self_verify be _ ?_ (by rw [hlen]; norm_num) (by rw [hlen]; norm_num) rfl rfl
    refine isBytes_append (isBytes_append (isBytes_append (isBytes_append ?_
      (isBytes_htonsBytes _)) (isBytes_htonsBytes _)) ?_) ?_
    · intro b hb; simp [Ping.ICMP_ECHO] at hb; omega
    · unfold Ping.msg; decide
    · intro b hb; simp at hb; omega
  · obtain ⟨hb, hlen, h2, h3⟩ := Traceroute.fill_packet_shape be pid seq
    unfold Traceroute.probe_packet
    refine ⟨by rw [length_set_checksum, hlen], ?_⟩
    exact Traceroute.self_verify_tr be _ hb (by rw [hlen]; norm_num) (by rw [hlen]; norm_num) h2 h3

/-- A concrete instance: an odd-length buffer of seven bytes on a little-endian host. -/
theorem checksum_self_verifying_witness :
    Ping.calculate_checksum false (set_checksum false [8, 0, 0, 0, 18, 52, 7]
        (Ping.calculate_checksum false [8, 0, 0, 0, 18, 52, 7])) = 0 ∧
      Traceroute.calculate_checksum false (set_checksum false [8, 0, 0, 0, 18, 52, 7]
        (Traceroute.calculate_checksum false [8, 0, 0, 0, 18, 52, 7])) = 0 :=
  checksum_self_verifying.1 false [8, 0, 0, 0, 18, 52, 7] (by decide) (by decide) (by decide)
    (by decide) (by decide)

/-- The summing loops on a buffer of zero bytes. -/
theorem sum_loop_zeros (be : Bool) : ∀ (k : Nat),
    Ping.sum_loop be (List.replicate (2 * k) 0) 0 = 0 ∧
      Traceroute.sum_loop be (List.replicate (2 * k) 0) 0 = 0
  | 0 => by simp [Ping.sum_loop, Traceroute.sum_loop]
  | k + 1 => by
    have h : List.replicate (2 * (k + 1)) 0 = 0 :: 0 :: List.replicate (2 * k) 0 := by
      rw [show 2 * (k + 1) = 2 * k + 1 + 1 by ring]; rfl
    have hw : word16 be 0 0 = 0 := by cases be <;> rfl
    obtain ⟨h1, h2⟩ := sum_loop_zeros be k
    rw [h]
    simp [Ping.sum_loop, Traceroute.sum_loop, hw, h1, h2]

/-- C2. For every even length `N`, `calculate_checksum` of a buffer of `N` zero
bytes is `0xFFFF`, for ping's function and for traceroute's. -/
theorem checksum_zero_buffer (be : Bool) (N : Nat) (hN : N % 2 = 0) :
    Ping.calculate_checksum be (List.replicate N 0) = 0xFFFF ∧
      Traceroute.calculate_checksum be (List.replicate N 0) = 0xFFFF := by
  obtain ⟨k, rfl⟩ : ∃ k, N = 2 * k := ⟨N / 2, by omega⟩
  obtain ⟨h1, h2⟩ := sum_loop_zeros be k
  constructor
  · unfold Ping.calculate_checksum
    rw [h1, Ping.fold_loop_done (by norm_num)]
  · unfold Traceroute.calculate_checksum
    rw [h2]
    rfl

/-- A concrete instance: eight zero bytes on a little-endian host. -/
theorem checksum_zero_buffer_witness :
    8 % 2 = 0 ∧ Ping.calculate_checksum false (List.replicate 8 0) = 0xFFFF ∧
      Traceroute.calculate_checksum false (List.replicate 8 0) = 0xFFFF :=
  ⟨by decide, checksum_zero_buffer false 8 (by decide)⟩

/-! ## The reference checksum -/

/-- The word sum of ping's summing loop is the sum of the specification's words. -/
theorem Spec.sum_words (be : Bool) : ∀ (buf : List Nat),
    (Spec.words be buf).sum = wordSum be (fun b => b) buf
  | [] => rfl
  | [b] => by simp [Spec.words, wordSum]
  | b0 :: b1 :: rest => by
    simp only [Spec.words, wordSum, List.sum_cons, Spec.sum_words be rest]

/-- With enough rounds the specification's fold is the fold loop of ping.c. -/
theorem Spec.fold_until_eq : ∀ (fuel acc : Nat), acc ≤ fuel → acc < 2 ^ 32 →
    Spec.fold_until fuel acc = Ping.fold_loop acc
  | 0, acc, h, _ => by
    have h0 : acc = 0 := by omega
    subst h0
    rw [Ping.fold_loop_done (by norm_num)]
    rfl
  | fuel + 1, acc, h, h32 => by
    by_cases hc : acc / 65536 = 0
    · rw [Ping.fold_loop_done (by omega)]
      simp [Spec.fold_until, hc]
    · rw [Ping.fold_loop_carry (by omega),
        Nat.mod_eq_of_lt (show acc % 65536 + acc / 65536 < 2 ^ 32 by omega)]
      simp only [Spec.fold_until, hc, if_false]
      exact Spec.fold_until_eq fuel _ (by omega) (by omega)

/-- C3, as amended. For every buffer (even or odd length) ping's
`calculate_checksum` returns the one's complement, on 16 bits, of the
end-around-carry fold of the 32-bit sum of the buffer's consecutive 16-bit words
taken in the byte order of the host, a final odd byte being added as the low
byte of a zero-padded word. On a big-endian host (`be = true`) that is the
reference checksum over network-order words. -/
theorem ping_checksum_refines_host_order_reference (be : Bool) (buf : List Nat) :
    Ping.calculate_checksum be buf = Spec.internet_checksum be buf := by
  have h32 : Spec.sum32 be buf < 2 ^ 32 := Nat.mod_lt _ (by norm_num)
  unfold Spec.internet_checksum Spec.fold16
  rw [Spec.fold_until_eq _ _ (le_refl _) h32]
  unfold Ping.calculate_checksum
  rw [Ping.sum_loop_eq be buf 0 (by norm_num), Nat.zero_add]
  unfold Spec.sum32
  rw [Spec.sum_words]
  have hlt := (Ping.fold_loop_spec _ (Nat.mod_lt (wordSum be (fun b => b) buf)
    (show 0 < 2 ^ 32 by norm_num))).1
  rw [Nat.mod_eq_of_lt hlt]

/-- C3 fails as stated: on a little-endian host the two-byte buffer `01 00` gives
`0xFFFE` in ping.c and `0xFEFF` by the reference over network-order words. -/
theorem ping_checksum_differs_from_network_order_reference :
    Ping.calculate_checksum false [1, 0] = 0xFFFE ∧
      Spec.internet_checksum true [1, 0] = 0xFEFF ∧
      Ping.calculate_checksum false [1, 0] ≠ Spec.internet_checksum true [1, 0] := by
  have h1 : Ping.calculate_checksum false [1, 0] = 0xFFFE := by
    unfold Ping.calculate_checksum
    have : Ping.sum_loop false [1, 0] 0 = 1 := by decide
    rw [this, Ping.fold_loop_done (by norm_num)]
  have h2 : Spec.internet_checksum true [1, 0] = 0xFEFF := by decide
  refine ⟨h1, h2, ?_⟩
  rw [h1, h2]
  decide

/-! ## Invariants of the probe loop -/

/-- The receive branch changes nothing but the buffer unless it records a reply. -/
theorem Ping.recv_step_cases (cfg : Ping.Config) (e : Ping.Env) (s : Ping.State) :
    ((Ping.recv_step cfg e s).stats = s.stats ∧ (Ping.recv_step cfg e s).seq = s.seq ∧
        ((Ping.recv_step cfg e s).out = s.out ∨
          (Ping.recv_step cfg e s).out = s.out ++ [Ping.Line.perror Ping.Call.recvfrom]) ∧
        ((Ping.recv_step cfg e s).pc = Ping.PC.sleep ∨
          (Ping.recv_step cfg e s).pc = Ping.PC.exited 1)) ∨
      ((Ping.recv_step cfg e s).stats = Ping.record_reply e.rtt s.stats ∧
        (Ping.recv_step cfg e s).seq = s.seq + 1 ∧
        (∃ b t, (Ping.recv_step cfg e s).out
          = s.out ++ [Ping.Line.reply b e.src (s.seq + 1) t e.rtt]) ∧
        (Ping.recv_step cfg e s).pc = Ping.PC.sleep) := by
  unfold Ping.recv_step
  cases e.recv <;> dsimp only <;> split_ifs <;> simp

theorem Ping.recv_step_keep_running (cfg : Ping.Config) (e : Ping.Env) (s : Ping.State) :
    (Ping.recv_step cfg e s).keep_running = s.keep_running := by
  unfold Ping.recv_step
  cases e.recv <;> dsimp only <;> split_ifs <;> simp

/-- The effect of the first statement group of the body: the probe is sent and
counted, or `main` returns 1. -/
theorem Ping.step_build_send (cfg : Ping.Config) (e : Ping.Env) (s : Ping.State)
    (hpc : s.pc = Ping.PC.build_send) :
    ((Ping.step cfg e s).pc = Ping.PC.exited 1 ∧ (Ping.step cfg e s).stats = s.stats) ∨
      ((Ping.step cfg e s).pc = Ping.PC.poll ∧
        (Ping.step cfg e s).stats.transmitted = s.stats.transmitted + 1 ∧
        (Ping.step cfg e s).stats.received = s.stats.received ∧
        (Ping.step cfg e s).stats
          = { s.stats with transmitted := s.stats.transmitted + 1 }) := by
  unfold Ping.step
  rw [hpc]
  dsimp only
  split_ifs <;> simp

/-- The effect of the wait for a reply: the counters are untouched. -/
theorem Ping.step_poll (cfg : Ping.Config) (e : Ping.Env) (s : Ping.State)
    (hpc : s.pc = Ping.PC.poll) :
    (Ping.step cfg e s).stats = s.stats ∧
      ((Ping.step cfg e s).pc = Ping.PC.loop_test ∨ (Ping.step cfg e s).pc = Ping.PC.exited 1 ∨
        (Ping.step cfg e s).pc = Ping.PC.recv ∨ (Ping.step cfg e s).pc = Ping.PC.sleep) := by
  unfold Ping.step
  rw [hpc]
  dsimp only
  split_ifs <;> simp

theorem Ping.step_recv (cfg : Ping.Config) (e : Ping.Env) (s : Ping.State)
    (hpc : s.pc = Ping.PC.recv) : Ping.step cfg e s = Ping.recv_step cfg e s := by
  unfold Ping.step
  rw [hpc]

theorem Ping.step_sleep (cfg : Ping.Config) (e : Ping.Env) (s : Ping.State)
    (hpc : s.pc = Ping.PC.sleep) :
    Ping.step cfg e s = { s with pc := Ping.PC.loop_test } := by
  unfold Ping.step
  rw [hpc]

theorem Ping.record_reply_counts (rtt : ℚ) (st : Ping.ping_stats) :
    (Ping.record_reply rtt st).received = st.received + 1 ∧
      (Ping.record_reply rtt st).transmitted = st.transmitted := ⟨rfl, rfl⟩

theorem Ping.step_countInv (cfg : Ping.Config) (e : Ping.Env) (s : Ping.State)
    (h : Ping.CountInv s) : Ping.CountInv (Ping.step cfg e s) := by
  obtain ⟨h1, h2⟩ := h
  unfold Ping.CountInv
  cases hpc : s.pc with
  | build_send =>
    rcases Ping.step_build_send cfg e s hpc with ⟨hp, hs⟩ | ⟨hp, ht, hr, -⟩
    · rw [hp, hs]; simp [h1]
    · rw [hp, ht, hr]; constructor <;> intros <;> omega
  | poll =>
    obtain ⟨hs, _⟩ := Ping.step_poll cfg e s hpc
    have := h2 (Or.inl hpc)
    rw [hs]
    constructor <;> intros <;> omega
  | recv =>
    have hlt := h2 (Or.inr hpc)
    rw [Ping.step_recv cfg e s hpc]
    rcases Ping.recv_step_cases cfg e s with ⟨hs, _, _, hp | hp⟩ | ⟨hs, _, _, hp⟩
    · rw [hs, hp]; simp [h1]
    · rw [hs, hp]; simp [h1]
    · rw [hs, hp]
      simp only [Ping.record_reply_counts, reduceCtorEq, or_self, false_implies, and_true]
      omega
  | loop_test => unfold Ping.step; rw [hpc]; dsimp only; split_ifs <;> simp [h1]
  | sleep => unfold Ping.step; rw [hpc]; simp [h1]
  | final_test => unfold Ping.step; rw [hpc]; dsimp only; split_ifs <;> simp [h1]
  | final_display => unfold Ping.step; rw [hpc]; simp [h1, Ping.display_statistics]
  | close => unfold Ping.step; rw [hpc]; simp [h1]
  | exited c => unfold Ping.step; rw [hpc]; simp [h1, hpc]

theorem Ping.exec_countInv (cfg : Ping.Config) (s : Ping.State) (a : Ping.Action)
    (h : Ping.CountInv s) : Ping.CountInv (Ping.exec cfg s a) := by
  cases a with
  | main e => exact Ping.step_countInv cfg e s h
  | sigint =>
    show Ping.CountInv (match s.pc with
      | Ping.PC.exited _ => s
      | _ => Ping.handle_sigint s)
    split
    · exact h
    · exact h

theorem Ping.run_countInv (cfg : Ping.Config) : ∀ (acts : List Ping.Action) (s : Ping.State),
    Ping.CountInv s → Ping.CountInv (Ping.run cfg acts s)
  | [], _, h => h
  | a :: acts, s, h => Ping.run_countInv cfg acts _ (Ping.exec_countInv cfg s a h)

/-- A statement group of the body, applied outside of the body, does nothing. -/
theorem Ping.body_step_out (cfg : Ping.Config) (e : Ping.Env) (s : Ping.State)
    (h : Ping.in_body s.pc = false) : Ping.body_step cfg e s = s := by
  simp [Ping.body_step, h]

theorem Ping.body_step_in (cfg : Ping.Config) (e : Ping.Env) (s : Ping.State)
    (h : Ping.in_body s.pc = true) : Ping.body_step cfg e s = Ping.step cfg e s := by
  simp [Ping.body_step, h]

/-- One pass through the loop body, counter by counter. -/
theorem Ping.loop_body_counts (cfg : Ping.Config) (e : Ping.Env) (s : Ping.State)
    (hpc : s.pc = Ping.PC.build_send) :
    ((Ping.loop_body cfg e s).pc = Ping.PC.loop_test ∨
        (Ping.loop_body cfg e s).pc = Ping.PC.exited 1) ∧
      ((Ping.loop_body cfg e s).pc = Ping.PC.loop_test →
        (Ping.loop_body cfg e s).stats.transmitted = s.stats.transmitted + 1) ∧
      ((Ping.loop_body cfg e s).stats.received = s.stats.received ∨
        ((Ping.loop_body cfg e s).stats.received = s.stats.received + 1 ∧
          (Ping.loop_body cfg e s).stats.transmitted = s.stats.transmitted + 1)) := by
  unfold Ping.loop_body
  rw [Ping.body_step_in cfg e s (by rw [hpc]; rfl)]
  rcases Ping.step_build_send cfg e s hpc with ⟨hp, hs⟩ | ⟨hp, ht, hr, -⟩
  · -- `sendto` failed
    have hout : Ping.in_body (Ping.step cfg e s).pc = false := by rw [hp]; rfl
    rw [Ping.body_step_out cfg e _ hout, Ping.body_step_out cfg e _ hout,
      Ping.body_step_out cfg e _ hout, hp, hs]
    simp
  · generalize Ping.step cfg e s = s1 at hp ht hr
    rw [Ping.body_step_in cfg e s1 (by rw [hp]; rfl)]
    obtain ⟨hs2, hp2⟩ := Ping.step_poll cfg e s1 hp
    generalize Ping.step cfg e s1 = s2 at hs2 hp2
    have hdone : ∀ s3 : Ping.State, (s3.pc = Ping.PC.loop_test ∨ s3.pc = Ping.PC.exited 1) →
        Ping.body_step cfg e s3 = s3 := fun s3 h =>
      Ping.body_step_out cfg e s3 (by rcases h with h | h <;> rw [h] <;> rfl)
    have hsleep : ∀ s3 : Ping.State, s3.pc = Ping.PC.sleep →
        Ping.body_step cfg e s3 = { s3 with pc := Ping.PC.loop_test } := fun s3 h => by
      rw [Ping.body_step_in cfg e s3 (by rw [h]; rfl), Ping.step_sleep cfg e s3 h]
    rcases hp2 with hp2 | hp2 | hp2 | hp2
    · rw [hdone s2 (Or.inl hp2), hdone s2 (Or.inl hp2), hp2, hs2, ht, hr]
      simp
    · rw [hdone s2 (Or.inr hp2), hdone s2 (Or.inr hp2), hp2, hs2, hr]
      simp
    · rw [Ping.body_step_in cfg e s2 (by rw [hp2]; rfl), Ping.step_recv cfg e s2 hp2]
      rcases Ping.recv_step_cases cfg e s2 with ⟨hs3, _, _, hp3 | hp3⟩ | ⟨hs3, _, _, hp3⟩
      · rw [hsleep _ hp3]
        simp only [hs3, hs2, ht, hr, true_or, and_self, implies_true]
      · rw [hdone _ (Or.inr hp3), hp3, hs3, hs2, hr]
        simp
      · rw [hsleep _ hp3]
        simp only [hs3, hs2, ht, hr, Ping.record_reply_counts, true_or, and_self,
          implies_true, or_true]
    · rw [hsleep _ hp2, hdone _ (Or.inl rfl)]
      simp only [hs2, ht, hr, true_or, and_self, implies_true]

/-- C4. In ping's probe loop `stats.received ≤ stats.transmitted` holds in the
initial state and in every state reached from it, for every sequence of answers
of the network and deliveries of SIGINT; and one pass through the loop body, if
it comes back to the loop test, has incremented `transmitted` exactly once, and
it increments `received` at most once and only after `transmitted`. -/
theorem ping_received_le_transmitted :
    (∀ (cfg : Ping.Config) (acts : List Ping.Action),
      (Ping.run cfg acts Ping.init).stats.received
        ≤ (Ping.run cfg acts Ping.init).stats.transmitted) ∧
    (∀ (cfg : Ping.Config) (e : Ping.Env) (s : Ping.State), s.pc = Ping.PC.build_send →
      ((Ping.loop_body cfg e s).pc = Ping.PC.loop_test ∨
        (Ping.loop_body cfg e s).pc = Ping.PC.exited 1) ∧
      ((Ping.loop_body cfg e s).pc = Ping.PC.loop_test →
        (Ping.loop_body cfg e s).stats.transmitted = s.stats.transmitted + 1) ∧
      ((Ping.loop_body cfg e s).stats.received = s.stats.received ∨
        ((Ping.loop_body cfg e s).stats.received = s.stats.received + 1 ∧
          (Ping.loop_body cfg e s).stats.transmitted = s.stats.transmitted + 1))) := by
  refine ⟨fun cfg acts => ?_, Ping.loop_body_counts⟩
  have hinit : Ping.CountInv Ping.init := by
    constructor
    · decide
    · intro h; rcases h with h | h <;> cases h
  exact (Ping.run_countInv cfg acts Ping.init hinit).1

/-- A concrete instance: one pass through the body in which an echo reply arrives. -/
theorem ping_received_le_transmitted_witness :
    ((Ping.loop_body (Ping.cfg_v4 3) (Ping.env_recv (Ping.ipv4_icmp 0 18 52) 7 5)
        { Ping.init with pc := Ping.PC.build_send }).pc = Ping.PC.loop_test ∨
      (Ping.loop_body (Ping.cfg_v4 3) (Ping.env_recv (Ping.ipv4_icmp 0 18 52) 7 5)
        { Ping.init with pc := Ping.PC.build_send }).pc = Ping.PC.exited 1) ∧
    ((Ping.loop_body (Ping.cfg_v4 3) (Ping.env_recv (Ping.ipv4_icmp 0 18 52) 7 5)
        { Ping.init with pc := Ping.PC.build_send }).pc = Ping.PC.loop_test →
      (Ping.loop_body (Ping.cfg_v4 3) (Ping.env_recv (Ping.ipv4_icmp 0 18 52) 7 5)
        { Ping.init with pc := Ping.PC.build_send }).stats.transmitted
          = ({ Ping.init with pc := Ping.PC.build_send } : Ping.State).stats.transmitted + 1) ∧
    ((Ping.loop_body (Ping.cfg_v4 3) (Ping.env_recv (Ping.ipv4_icmp 0 18 52) 7 5)
        { Ping.init with pc := Ping.PC.build_send }).stats.received
          = ({ Ping.init with pc := Ping.PC.build_send } : Ping.State).stats.received ∨
      ((Ping.loop_body (Ping.cfg_v4 3) (Ping.env_recv (Ping.ipv4_icmp 0 18 52) 7 5)
        { Ping.init with pc := Ping.PC.build_send }).stats.received
          = ({ Ping.init with pc := Ping.PC.build_send } : Ping.State).stats.received + 1 ∧
       (Ping.loop_body (Ping.cfg_v4 3) (Ping.env_recv (Ping.ipv4_icmp 0 18 52) 7 5)
        { Ping.init with pc := Ping.PC.build_send }).stats.transmitted
          = ({ Ping.init with pc := Ping.PC.build_send } : Ping.State).stats.transmitted + 1)) :=
  ping_received_le_transmitted.2 (Ping.cfg_v4 3)
    (Ping.env_recv (Ping.ipv4_icmp 0 18 52) 7 5) { Ping.init with pc := Ping.PC.build_send } rfl

/-! ## The summary -/

/-- The three tries of a hop, one after the other. -/
theorem Traceroute.hop_eq (dest : Nat) (net : Nat → Nat → Traceroute.TryOutcome) (ttl : Nat) :
    Traceroute.hop dest net ttl
      = Traceroute.try_step dest (net ttl 2) (Traceroute.try_step dest (net ttl 1)
          (Traceroute.try_step dest (net ttl 0) Traceroute.hop_init)) := rfl

/-- A try sets `reached_dest` when its reply comes from the destination, and
never clears it. -/
theorem Traceroute.try_step_reached (dest : Nat) (o : Traceroute.TryOutcome)
    (h : Traceroute.HopState) :
    (Traceroute.try_step dest o h).reached_dest = true ↔
      (h.reached_dest = true ∨ ∃ rtt, o = Traceroute.TryOutcome.reply dest rtt) := by
  cases o with
  | send_failed => simp [Traceroute.try_step]
  | no_reply => simp [Traceroute.try_step]
  | reply src rtt =>
    simp only [Traceroute.try_step]
    by_cases hs : src = dest
    · subst hs; simp
    · simp [hs]

/-- The hop reaches the destination exactly when one of its three tries is
answered from the destination address. -/
theorem Traceroute.hop_reached_iff (dest : Nat) (net : Nat → Nat → Traceroute.TryOutcome)
    (ttl : Nat) :
    (Traceroute.hop dest net ttl).reached_dest = true ↔
      ∃ t rtt, t < Traceroute.TRIES_PER_HOP ∧
        net ttl t = Traceroute.TryOutcome.reply dest rtt := by
  rw [Traceroute.hop_eq, Traceroute.try_step_reached, Traceroute.try_step_reached,
    Traceroute.try_step_reached]
  constructor
  · rintro (((h | ⟨r, h⟩) | ⟨r, h⟩) | ⟨r, h⟩)
    · simp [Traceroute.hop_init] at h
    · exact ⟨0, r, by decide, h⟩
    · exact ⟨1, r, by decide, h⟩
    · exact ⟨2, r, by decide, h⟩
  · rintro ⟨t, r, ht, h⟩
    have ht3 : t < 3 := ht
    obtain rfl | rfl | rfl : t = 0 ∨ t = 1 ∨ t = 2 := by omega
    · exact Or.inl (Or.inl (Or.inr ⟨r, h⟩))
    · exact Or.inl (Or.inr ⟨r, h⟩)
    · exact Or.inr ⟨r, h⟩

theorem Traceroute.print_probe_results_ttl (ttl : Nat) (a : Option Nat) (r : Nat)
    (ts : List ℚ) : (Traceroute.print_probe_results ttl a r ts).ttl = ttl := by
  unfold Traceroute.print_probe_results
  split_ifs <;> rfl

/-- The loop prints at most one line for each value of `ttl` left. -/
theorem Traceroute.ttl_loop_length_le (dest : Nat) (net : Nat → Nat → Traceroute.TryOutcome) :
    ∀ (left ttl : Nat) (seq : Int) (tr : Traceroute.Trace),
      (Traceroute.ttl_loop dest net left ttl seq tr).lines.length ≤ tr.lines.length + left
  | 0, _, _, _ => by simp [Traceroute.ttl_loop]
  | left + 1, ttl, seq, tr => by
    rw [Traceroute.ttl_loop]
    split_ifs
    · simp
    · refine le_trans (Traceroute.ttl_loop_length_le dest net left _ _ _) ?_
      simp
      omega

/-- The loop started at `ttl` when the destination first answers at `ttl + d`:
it prints the lines for `ttl` to `ttl + d` and sends no probe beyond. -/
theorem Traceroute.ttl_loop_reach (dest : Nat) (net : Nat → Nat → Traceroute.TryOutcome) :
    ∀ (d left ttl : Nat) (seq : Int) (tr : Traceroute.Trace), d < left →
      (∀ t, ttl ≤ t → t < ttl + d → (Traceroute.hop dest net t).reached_dest = false) →
      (Traceroute.hop dest net (ttl + d)).reached_dest = true →
      (Traceroute.ttl_loop dest net left ttl seq tr).lines.map Traceroute.HopLine.ttl
          = tr.lines.map Traceroute.HopLine.ttl ++ List.range' ttl (d + 1) ∧
        ∀ p ∈ (Traceroute.ttl_loop dest net left ttl seq tr).probes,
          p ∈ tr.probes ∨ p.ttl ≤ ttl + d
  | _, 0, _, _, _, h, _, _ => by omega
  | 0, left + 1, ttl, seq, tr, _, _, hK => by
    rw [Traceroute.ttl_loop]
    rw [Nat.add_zero] at hK
    rw [if_pos hK]
    constructor
    · simp [Traceroute.print_probe_results_ttl]
    · intro p hp
      simp only [List.mem_append, List.mem_map] at hp
      rcases hp with hp | ⟨i, _, rfl⟩
      · exact Or.inl hp
      · exact Or.inr (by simp)
  | d + 1, left + 1, ttl, seq, tr, hlt, hno, hK => by
    rw [Traceroute.ttl_loop]
    have h0 := hno ttl (le_refl _) (by omega)
    rw [h0]
    simp only [Bool.false_eq_true, if_false]
    obtain ⟨h1, h2⟩ := Traceroute.ttl_loop_reach dest net d left (ttl + 1)
      (seq + Traceroute.TRIES_PER_HOP)
      { lines := tr.lines ++ [Traceroute.print_probe_results ttl
          (Traceroute.hop dest net ttl).recv_addr (Traceroute.hop dest net ttl).replies
          (Traceroute.hop dest net ttl).times]
        probes := tr.probes ++ (List.range Traceroute.TRIES_PER_HOP).map
          fun i => { ttl := ttl, seq := seq + i } }
      (by omega) (fun t ht1 ht2 => hno t (by omega) (by omega))
      (by rw [show ttl + 1 + d = ttl + (d + 1) by omega]; exact hK)
    constructor
    · rw [h1]
      simp only [List.map_append, List.map_cons, List.map_nil,
        Traceroute.print_probe_results_ttl, List.append_assoc, List.singleton_append]
      simp [List.range'_succ]
    · intro p hp
      rcases h2 p hp with hp | hp
      · simp only [List.mem_append, List.mem_map] at hp
        rcases hp with hp | ⟨i, _, rfl⟩
        · exact Or.inl hp
        · exact Or.inr (by simp)
      · exact Or.inr (by omega)

/-- C6. Traceroute hop bound. For every `K` with `1 ≤ K ≤ MAX_HOPS` and every
behaviour of the network in which no reply received at a TTL below `K` comes
from the destination address and some reply received at TTL `K` does, the sweep
prints exactly `K` hop lines, for the TTLs 1 to `K` in order, and sends no probe
with a TTL above `K`; and for every behaviour of the network it prints at most
`MAX_HOPS` hop lines. -/
theorem traceroute_hop_bound :
    (∀ (dest : Nat) (net : Nat → Nat → Traceroute.TryOutcome) (K : Nat),
      1 ≤ K → K ≤ Traceroute.MAX_HOPS →
      (∀ ttl t src rtt, 1 ≤ ttl → ttl < K → t < Traceroute.TRIES_PER_HOP →
        net ttl t = Traceroute.TryOutcome.reply src rtt → src ≠ dest) →
      (∃ t rtt, t < Traceroute.TRIES_PER_HOP ∧
        net K t = Traceroute.TryOutcome.reply dest rtt) →
      (Traceroute.sweep dest net).lines.length = K ∧
        (Traceroute.sweep dest net).lines.map Traceroute.HopLine.ttl = List.range' 1 K ∧
        ∀ p ∈ (Traceroute.sweep dest net).probes, p.ttl ≤ K ∧ p.ttl ≠ K + 1) ∧
    (∀ (dest : Nat) (net : Nat → Nat → Traceroute.TryOutcome),
      (Traceroute.sweep dest net).lines.length ≤ Traceroute.MAX_HOPS) := by
  constructor
  · intro dest net K h1 hK hbefore hat
    have hno : ∀ t, 1 ≤ t → t < 1 + (K - 1) →
        (Traceroute.hop dest net t).reached_dest = false := by
      intro t ht1 ht2
      by_contra hc
      have hc2 : (Traceroute.hop dest net t).reached_dest = true := by
        cases h : (Traceroute.hop dest net t).reached_dest
        · exact absurd h hc
        · rfl
      obtain ⟨i, r, hi, hr⟩ := (Traceroute.hop_reached_iff dest net t).1 hc2
      exact hbefore t i dest r ht1 (by omega) hi hr rfl
    have hyes : (Traceroute.hop dest net (1 + (K - 1))).reached_dest = true := by
      rw [show 1 + (K - 1) = K by omega]
      exact (Traceroute.hop_reached_iff dest net K).2 hat
    obtain ⟨hl, hp⟩ := Traceroute.ttl_loop_reach dest net (K - 1) Traceroute.MAX_HOPS 1 1
      { lines := [], probes := [] } (by omega) hno hyes
    have hl2 : (Traceroute.sweep dest net).lines.map Traceroute.HopLine.ttl
        = List.range' 1 K := by
      unfold Traceroute.sweep
      rw [hl, show K - 1 + 1 = K by omega]
      rfl
    refine ⟨?_, hl2, ?_⟩
    · have := congrArg List.length hl2
      simpa using this
    · intro p hp2
      rcases hp p hp2 with h | h
      · simp at h
      · constructor <;> omega
  · intro dest net
    have := Traceroute.ttl_loop_length_le dest net Traceroute.MAX_HOPS 1 1
      { lines := [], probes := [] }
    simpa [Traceroute.sweep] using this

/-- A concrete instance: the destination 9 answers at the second hop. -/
theorem traceroute_hop_bound_witness :
    (Traceroute.sweep 9 Traceroute.net_two_hops).lines.length = 2 ∧
      (Traceroute.sweep 9 Traceroute.net_two_hops).lines.map Traceroute.HopLine.ttl
        = List.range' 1 2 ∧
      ∀ p ∈ (Traceroute.sweep 9 Traceroute.net_two_hops).probes, p.ttl ≤ 2 ∧ p.ttl ≠ 2 + 1 :=
  traceroute_hop_bound.1 9 Traceroute.net_two_hops 2 (by decide) (by decide)
    (fun ttl t src rtt h1 h2 _ h => by
      have : ttl < 2 := h2
      simp [Traceroute.net_two_hops, this] at h)
    ⟨0, 4, by decide, by simp [Traceroute.net_two_hops]⟩

/-! ## Runs of the probe loop -/

theorem Ping.run_append (cfg : Ping.Config) (a b : List Ping.Action) (s : Ping.State) :
    Ping.run cfg (a ++ b) s = Ping.run cfg b (Ping.run cfg a s) := by
  simp [Ping.run, List.foldl_append]

theorem Ping.run_cons (cfg : Ping.Config) (a : Ping.Action) (b : List Ping.Action)
    (s : Ping.State) : Ping.run cfg (a :: b) s = Ping.run cfg b (Ping.exec cfg s a) := rfl

theorem Ping.exec_main (cfg : Ping.Config) (s : Ping.State) (e : Ping.Env) :
    Ping.exec cfg s (Ping.Action.main e) = Ping.step cfg e s := rfl

/-- The loop test lets the body start while the flag is set and the count is
not reached. -/
theorem Ping.step_loop_test_enter (cfg : Ping.Config) (e : Ping.Env) (s : Ping.State)
    (hpc : s.pc = Ping.PC.loop_test) (hk : s.keep_running = true)
    (hc : cfg.options.count = -1 ∨ s.stats.transmitted < cfg.options.count) :
    Ping.step cfg e s = { s with pc := Ping.PC.build_send } := by
  unfold Ping.step
  rw [hpc]
  simp [hk, hc]

/-- The loop test leaves the loop when the flag is cleared or the count reached. -/
theorem Ping.step_loop_test_exit (cfg : Ping.Config) (e : Ping.Env) (s : Ping.State)
    (hpc : s.pc = Ping.PC.loop_test)
    (hc : s.keep_running = false ∨
      (cfg.options.count ≠ -1 ∧ cfg.options.count ≤ s.stats.transmitted)) :
    Ping.step cfg e s = { s with pc := Ping.PC.final_test } := by
  unfold Ping.step
  rw [hpc]
  dsimp only
  rw [if_neg]
  rintro ⟨hk, h⟩
  rcases hc with hc | ⟨hc1, hc2⟩
  · rw [hk] at hc; cases hc
  · rcases h with h | h
    · exact hc1 h
    · omega

/-- One pass with a timeout, from loop test to loop test. -/
theorem Ping.timeout_pass (cfg : Ping.Config) (e1 e2 e3 : Ping.Env) (s : Ping.State)
    (hpc : s.pc = Ping.PC.loop_test) (hk : s.keep_running = true)
    (hc : cfg.options.count = -1 ∨ s.stats.transmitted < cfg.options.count)
    (h2 : 0 < e2.bytes_sent) (h3 : e3.poll_ret = 0) :
    (Ping.step cfg e3 (Ping.step cfg e2 (Ping.step cfg e1 s))).pc = Ping.PC.loop_test ∧
      (Ping.step cfg e3 (Ping.step cfg e2 (Ping.step cfg e1 s))).keep_running = true ∧
      (Ping.step cfg e3 (Ping.step cfg e2 (Ping.step cfg e1 s))).stats
        = { s.stats with transmitted := s.stats.transmitted + 1 } ∧
      (Ping.step cfg e3 (Ping.step cfg e2 (Ping.step cfg e1 s))).seq = s.seq ∧
      (Ping.step cfg e3 (Ping.step cfg e2 (Ping.step cfg e1 s))).out
        = s.out ++ [Ping.Line.request_timeout (s.seq + 1)] := by
  rw [Ping.step_loop_test_enter cfg e1 s hpc hk hc]
  have hns : ¬ e2.bytes_sent ≤ 0 := by omega
  simp [Ping.step, hns, h3, hk]

/-- As many timeouts as probes are left: the loop comes back to its test with
the count reached. -/
theorem Ping.run_timeouts (cfg : Ping.Config) : ∀ (k : Nat) (acts : List Ping.Action)
    (s : Ping.State), s.pc = Ping.PC.loop_test → s.keep_running = true →
    s.stats.transmitted + k = cfg.options.count → (∀ a ∈ acts, Ping.IsTimeout a) →
    acts.length = 3 * k →
    (Ping.run cfg acts s).pc = Ping.PC.loop_test ∧
      (Ping.run cfg acts s).keep_running = true ∧
      (Ping.run cfg acts s).stats = { s.stats with transmitted := cfg.options.count } ∧
      (Ping.run cfg acts s).seq = s.seq ∧
      (Ping.run cfg acts s).out
        = s.out ++ List.replicate k (Ping.Line.request_timeout (s.seq + 1))
  | 0, acts, s, hpc, hk, hc, _, hlen => by
    have : acts = [] := List.length_eq_zero.1 (by omega)
    subst this
    have ht : s.stats.transmitted = cfg.options.count := by omega
    simp [Ping.run, hpc, hk, ← ht]
  | k + 1, [], _, _, _, _, _, hlen => by simp at hlen
  | k + 1, [_], _, _, _, _, _, hlen => by simp at hlen; omega
  | k + 1, [_, _], _, _, _, _, _, hlen => by simp at hlen; omega
  | k + 1, a1 :: a2 :: a3 :: rest, s, hpc, hk, hc, hacts, hlen => by
    obtain ⟨e1, rfl, -, -⟩ := hacts a1 (by simp)
    obtain ⟨e2, rfl, h2, -⟩ := hacts a2 (by simp)
    obtain ⟨e3, rfl, -, h3⟩ := hacts a3 (by simp)
    rw [Ping.run_cons, Ping.run_cons, Ping.run_cons]
    simp only [Ping.exec_main]
    obtain ⟨p1, p2, p3, p4, p5⟩ := Ping.timeout_pass cfg e1 e2 e3 s hpc hk
      (Or.inr (by omega)) h2 h3
    generalize Ping.step cfg e3 (Ping.step cfg e2 (Ping.step cfg e1 s)) = s3 at p1 p2 p3 p4 p5
    obtain ⟨q1, q2, q3, q4, q5⟩ := Ping.run_timeouts cfg k rest s3 p1 p2
      (by rw [p3]; simp only; omega)
      (fun a ha => hacts a (List.mem_cons_of_mem _ (List.mem_cons_of_mem _
        (List.mem_cons_of_mem _ ha))))
      (by simp only [List.length_cons] at hlen; omega)
    refine ⟨q1, q2, ?_, ?_, ?_⟩
    · rw [q3, p3]
    · rw [q4, p4]
    · rw [q5, p5, p4, List.replicate_succ, List.append_assoc]
      rfl

/-- Once `main` has returned nothing happens any more. -/
theorem Ping.run_exited (cfg : Ping.Config) : ∀ (acts : List Ping.Action) (s : Ping.State)
    (c : Int), s.pc = Ping.PC.exited c → Ping.run cfg acts s = s
  | [], _, _, _ => rfl
  | a :: acts, s, c, h => by
    have hs : Ping.exec cfg s a = s := by
      cases a with
      | main e => rw [Ping.exec_main]; unfold Ping.step; rw [h]
      | sigint => unfold Ping.exec; rw [h]
    rw [Ping.run_cons, hs]
    exact Ping.run_exited cfg acts s c h

/-- The end of `main` after the loop test fails with the flag still set: the
summary is printed once and `main` returns 0. -/
theorem Ping.normal_exit (cfg : Ping.Config) (e1 e2 e3 e4 : Ping.Env) (s : Ping.State)
    (hpc : s.pc = Ping.PC.loop_test) (hk : s.keep_running = true)
    (hc : cfg.options.count ≠ -1 ∧ cfg.options.count ≤ s.stats.transmitted) :
    (Ping.step cfg e4 (Ping.step cfg e3 (Ping.step cfg e2 (Ping.step cfg e1 s)))).pc
        = Ping.PC.exited 0 ∧
      (Ping.step cfg e4 (Ping.step cfg e3 (Ping.step cfg e2 (Ping.step cfg e1 s)))).out
        = s.out ++ Ping.summary s.stats ∧
      (Ping.step cfg e4 (Ping.step cfg e3 (Ping.step cfg e2 (Ping.step cfg e1 s)))).stats
        = s.stats := by
  rw [Ping.step_loop_test_exit cfg e1 s hpc (Or.inr hc)]
  simp [Ping.step, hk, Ping.display_statistics]

/-- C7. Ping against an address that never answers: for every count `n ≥ 1`, if
every send succeeds, every poll times out and no interrupt arrives, then once
`main` has made its `3 n + 4` steps it has returned 0, and its output is the
banner, exactly `n` timeout lines, and one summary that reports `n` packets
transmitted and 0 received, without an `rtt` line. -/
theorem ping_unreachable_prints_timeouts_and_summary (cfg : Ping.Config) (n : Nat)
    (acts : List Ping.Action) (hn : 1 ≤ n) (hcount : cfg.options.count = n)
    (hacts : ∀ a ∈ acts, Ping.IsTimeout a) (hlen : 3 * n + 4 ≤ acts.length) :
    (Ping.run cfg acts Ping.init).pc = Ping.PC.exited 0 ∧
      (Ping.run cfg acts Ping.init).out
        = [Ping.Line.banner Ping.payload_size]
          ++ List.replicate n (Ping.Line.request_timeout 1)
          ++ [Ping.Line.statistics_header, Ping.Line.statistics_counts n 0] ∧
      (Ping.run cfg acts Ping.init).stats.transmitted = n ∧
      (Ping.run cfg acts Ping.init).stats.received = 0 := by
  have hsplit : acts = acts.take (3 * n) ++ acts.drop (3 * n) := (List.take_append_drop _ _).symm
  have hl1 : (acts.take (3 * n)).length = 3 * n := by
    rw [List.length_take]; omega
  have hl2 : 4 ≤ (acts.drop (3 * n)).length := by
    rw [List.length_drop]; omega
  obtain ⟨q1, q2, q3, q4, q5⟩ := Ping.run_timeouts cfg n (acts.take (3 * n)) Ping.init rfl rfl
    (by rw [hcount]; simp [Ping.init, Ping.stats_init])
    (fun a ha => hacts a (List.mem_of_mem_take ha)) hl1
  rw [hsplit, Ping.run_append]
  generalize Ping.run cfg (acts.take (3 * n)) Ping.init = s1 at q1 q2 q3 q4 q5
  have hd : ∀ a ∈ acts.drop (3 * n), Ping.IsTimeout a :=
    fun a ha => hacts a (List.mem_of_mem_drop ha)
  generalize acts.drop (3 * n) = l2 at hl2 hd
  match l2, hl2, hd with
  | a1 :: a2 :: a3 :: a4 :: rest, _, hd =>
    obtain ⟨e1, rfl, -, -⟩ := hd a1 (by simp)
    obtain ⟨e2, rfl, -, -⟩ := hd a2 (by simp)
    obtain ⟨e3, rfl, -, -⟩ := hd a3 (by simp)
    obtain ⟨e4, rfl, -, -⟩ := hd a4 (by simp)
    rw [Ping.run_cons, Ping.run_cons, Ping.run_cons, Ping.run_cons]
    simp only [Ping.exec_main]
    obtain ⟨r1, r2, r3⟩ := Ping.normal_exit cfg e1 e2 e3 e4 s1 q1 q2
      ⟨by rw [hcount]; omega, by rw [q3]⟩
    rw [Ping.run_exited cfg rest _ 0 r1, r1, r2, r3, q3, q5, hcount]
    refine ⟨rfl, ?_, rfl, rfl⟩
    simp [Ping.summary, Ping.init, Ping.stats_init]
  | [], h, _ => simp at h
  | [_], h, _ => simp at h
  | [_, _], h, _ => simp at h
  | [_, _, _], h, _ => simp at h

/-- A concrete instance, the scenario of the specification: `count = 3`. -/
theorem ping_unreachable_prints_timeouts_and_summary_witness :
    (Ping.run (Ping.cfg_v4 3) (List.replicate 13 (Ping.Action.main Ping.env_timeout))
        Ping.init).pc = Ping.PC.exited 0 ∧
      (Ping.run (Ping.cfg_v4 3) (List.replicate 13 (Ping.Action.main Ping.env_timeout))
        Ping.init).out
        = [Ping.Line.banner Ping.payload_size]
          ++ List.replicate 3 (Ping.Line.request_timeout 1)
          ++ [Ping.Line.statistics_header, Ping.Line.statistics_counts (3 : Nat) 0] ∧
      (Ping.run (Ping.cfg_v4 3) (List.replicate 13 (Ping.Action.main Ping.env_timeout))
        Ping.init).stats.transmitted = (3 : Nat) ∧
      (Ping.run (Ping.cfg_v4 3) (List.replicate 13 (Ping.Action.main Ping.env_timeout))
        Ping.init).stats.received = 0 :=
  ping_unreachable_prints_timeouts_and_summary (Ping.cfg_v4 3) 3
    (List.replicate 13 (Ping.Action.main Ping.env_timeout)) (by decide) rfl
    (fun a ha => by
      rw [List.eq_of_mem_replicate ha]
      exact ⟨Ping.env_timeout, rfl, by decide, rfl⟩)
    (by decide)

/-! ## Sequence numbers -/

theorem Traceroute.ttl_loop_seqInv (dest : Nat) (net : Nat → Nat → Traceroute.TryOutcome) :
    ∀ (left ttl : Nat) (seq : Int) (tr : Traceroute.Trace), Traceroute.SeqInv tr seq →
      List.Pairwise (fun a b => a < b)
        ((Traceroute.ttl_loop dest net left ttl seq tr).probes.map Traceroute.Probe.seq)
  | 0, _, _, _, h => by rw [Traceroute.ttl_loop]; exact h.1
  | left + 1, ttl, seq, tr, h => by
    have hnew : Traceroute.SeqInv
        { lines := tr.lines ++ [Traceroute.print_probe_results ttl
            (Traceroute.hop dest net ttl).recv_addr (Traceroute.hop dest net ttl).replies
            (Traceroute.hop dest net ttl).times]
          probes := tr.probes ++ (List.range Traceroute.TRIES_PER_HOP).map
            fun i => { ttl := ttl, seq := seq + i } }
        (seq + Traceroute.TRIES_PER_HOP) := by
      obtain ⟨h1, h2⟩ := h
      have h3 : (List.range Traceroute.TRIES_PER_HOP).map
          (fun (i : Nat) => ({ ttl := ttl, seq := seq + (i : Int) } : Traceroute.Probe))
          = [⟨ttl, seq + (0 : Nat)⟩, ⟨ttl, seq + (1 : Nat)⟩, ⟨ttl, seq + (2 : Nat)⟩] := rfl
      unfold Traceroute.SeqInv
      rw [h3]
      constructor
      · simp only [List.map_append, List.map_cons, List.map_nil]
        rw [List.pairwise_append]
        refine ⟨h1, by simp, ?_⟩
        intro a ha b hb
        have := h2 a ha
        simp at hb
        omega
      · intro x hx
        simp only [List.map_append, List.map_cons, List.map_nil, List.mem_append] at hx
        rcases hx with hx | hx
        · have := h2 x hx
          simp [Traceroute.TRIES_PER_HOP]
          omega
        · simp [Traceroute.TRIES_PER_HOP] at hx ⊢
          omega
    rw [Traceroute.ttl_loop]
    split_ifs
    · exact hnew.1
    · exact Traceroute.ttl_loop_seqInv dest net left _ _ _ hnew

/-- C8, the code against the claim. With `count = 2` and two timeouts ping sends
two datagrams that both carry sequence number 0 (bytes 6 and 7 of the header):
`seq` is incremented only when an echo reply is received. In traceroute the
sequence numbers passed to `send_probe` are strictly increasing, whatever the
network does. -/
theorem ping_sequence_number_reused_after_timeout :
    (Ping.run (Ping.cfg_v4 2) (List.replicate 6 (Ping.Action.main Ping.env_timeout))
        Ping.init).sendto_log
        = [Ping.echo_request false 4660 0, Ping.echo_request false 4660 0] ∧
      ((Ping.echo_request false 4660 0).drop 6).take 2 = htonsBytes 0 ∧
      (Ping.run (Ping.cfg_v4 2) (List.replicate 6 (Ping.Action.main Ping.env_timeout))
        Ping.init).out
        = [Ping.Line.banner 64, Ping.Line.request_timeout 1, Ping.Line.request_timeout 1] ∧
      ∀ (dest : Nat) (net : Nat → Nat → Traceroute.TryOutcome),
        List.Pairwise (fun a b => a < b)
          ((Traceroute.sweep dest net).probes.map Traceroute.Probe.seq) := by
  refine ⟨rfl, rfl, rfl, fun dest net => ?_⟩
  exact Traceroute.ttl_loop_seqInv dest net _ _ _ _ ⟨by simp, by simp⟩

/-! ## The summary is printed once -/

/-- Where `main` goes next from each point. -/
theorem Ping.step_next (cfg : Ping.Config) (e : Ping.Env) (s : Ping.State) :
    match s.pc with
    | Ping.PC.loop_test =>
      (s.keep_running = true ∧ (Ping.step cfg e s).pc = Ping.PC.build_send) ∨
        (Ping.step cfg e s).pc = Ping.PC.final_test
    | Ping.PC.build_send =>
      (Ping.step cfg e s).pc = Ping.PC.exited 1 ∨ (Ping.step cfg e s).pc = Ping.PC.poll
    | Ping.PC.poll =>
      (Ping.step cfg e s).pc = Ping.PC.loop_test ∨ (Ping.step cfg e s).pc = Ping.PC.exited 1 ∨
        (Ping.step cfg e s).pc = Ping.PC.recv ∨ (Ping.step cfg e s).pc = Ping.PC.sleep
    | Ping.PC.recv =>
      (Ping.step cfg e s).pc = Ping.PC.sleep ∨ (Ping.step cfg e s).pc = Ping.PC.exited 1
    | Ping.PC.sleep => (Ping.step cfg e s).pc = Ping.PC.loop_test
    | Ping.PC.final_test =>
      (s.keep_running = true ∧ (Ping.step cfg e s).pc = Ping.PC.final_display) ∨
        (s.keep_running = false ∧ (Ping.step cfg e s).pc = Ping.PC.close)
    | Ping.PC.final_display => (Ping.step cfg e s).pc = Ping.PC.close
    | Ping.PC.close => (Ping.step cfg e s).pc = Ping.PC.exited 0
    | Ping.PC.exited c => (Ping.step cfg e s).pc = Ping.PC.exited c := by
  cases hpc : s.pc with
  | loop_test =>
    unfold Ping.step; rw [hpc]; dsimp only
    split_ifs with h
    · exact Or.inl ⟨h.1, rfl⟩
    · exact Or.inr rfl
  | build_send =>
    rcases Ping.step_build_send cfg e s hpc with ⟨h, _⟩ | ⟨h, _⟩
    · exact Or.inl h
    · exact Or.inr h
  | poll => exact (Ping.step_poll cfg e s hpc).2
  | recv =>
    dsimp only
    rw [Ping.step_recv cfg e s hpc]
    rcases Ping.recv_step_cases cfg e s with ⟨_, _, _, h⟩ | ⟨_, _, _, h⟩
    · exact h
    · exact Or.inl h
  | sleep => dsimp only; rw [Ping.step_sleep cfg e s hpc]
  | final_test =>
    unfold Ping.step; rw [hpc]; dsimp only
    cases hk : s.keep_running <;> simp
  | final_display => unfold Ping.step; rw [hpc]
  | close => unfold Ping.step; rw [hpc]
  | exited c => unfold Ping.step; rw [hpc]; exact hpc

/-- Outside of the final call of `display_statistics`, a statement group of
`main` neither writes `keep_running` nor prints a summary. -/
theorem Ping.step_footprint (cfg : Ping.Config) (e : Ping.Env) (s : Ping.State)
    (h : s.pc ≠ Ping.PC.final_display) :
    (Ping.step cfg e s).keep_running = s.keep_running ∧
      Ping.displays (Ping.step cfg e s) = Ping.displays s := by
  unfold Ping.displays
  cases hpc : s.pc with
  | loop_test => unfold Ping.step; rw [hpc]; dsimp only; split_ifs <;> exact ⟨rfl, rfl⟩
  | build_send =>
    unfold Ping.step; rw [hpc]; dsimp only
    split_ifs <;> simp [List.count_append]
  | poll =>
    unfold Ping.step; rw [hpc]; dsimp only
    split_ifs <;> simp [List.count_append]
  | recv =>
    rw [Ping.step_recv cfg e s hpc]
    refine ⟨Ping.recv_step_keep_running cfg e s, ?_⟩
    rcases Ping.recv_step_cases cfg e s with ⟨_, _, ho | ho, _⟩ | ⟨_, _, ⟨b, t, ho⟩, _⟩
    · rw [ho]
    · rw [ho]; simp [List.count_append]
    · rw [ho]; simp [List.count_append]
  | sleep => rw [Ping.step_sleep cfg e s hpc]; exact ⟨rfl, rfl⟩
  | final_test => unfold Ping.step; rw [hpc]; dsimp only; split_ifs <;> exact ⟨rfl, rfl⟩
  | final_display => exact absurd hpc h
  | close => unfold Ping.step; rw [hpc]; exact ⟨rfl, rfl⟩
  | exited c => unfold Ping.step; rw [hpc]; exact ⟨rfl, rfl⟩

/-- The final call of `display_statistics` prints one more summary. -/
theorem Ping.step_final_display (cfg : Ping.Config) (e : Ping.Env) (s : Ping.State)
    (h : s.pc = Ping.PC.final_display) :
    Ping.displays (Ping.step cfg e s) = Ping.displays s + 1 ∧
      (Ping.step cfg e s).pc = Ping.PC.close := by
  unfold Ping.step Ping.displays
  rw [h]
  dsimp only [Ping.display_statistics, Ping.summary]
  refine ⟨?_, rfl⟩
  split_ifs <;> simp [List.count_append]

/-- The handler prints one more summary and clears the flag. -/
theorem Ping.handle_sigint_effect (s : Ping.State) :
    Ping.displays (Ping.handle_sigint s) = Ping.displays s + 1 ∧
      (Ping.handle_sigint s).keep_running = false ∧ (Ping.handle_sigint s).pc = s.pc := by
  unfold Ping.displays Ping.handle_sigint
  dsimp only [Ping.display_statistics, Ping.summary]
  refine ⟨?_, rfl, rfl⟩
  split_ifs <;> simp [List.count_append]

theorem Ping.step_noSummaryYet (cfg : Ping.Config) (e : Ping.Env) (s : Ping.State)
    (h : Ping.NoSummaryYet s) : Ping.NoSummaryYet (Ping.step cfg e s) := by
  have hnext := Ping.step_next cfg e s
  rcases h with ⟨hk, hd, hc, hx⟩ | ⟨hd, hp⟩ | ⟨hd, hp⟩
  · by_cases hfd : s.pc = Ping.PC.final_display
    · obtain ⟨h1, h2⟩ := Ping.step_final_display cfg e s hfd
      exact Or.inr (Or.inl ⟨by rw [h1, hd], Or.inl h2⟩)
    · obtain ⟨h1, h2⟩ := Ping.step_footprint cfg e s hfd
      rw [← h1] at hk
      rw [← h2] at hd
      cases hpc : s.pc with
      | loop_test =>
        rw [hpc] at hnext
        rcases hnext with ⟨_, hn⟩ | hn <;> exact Or.inl ⟨hk, hd, by rw [hn]; simp, by rw [hn]; simp⟩
      | build_send =>
        rw [hpc] at hnext
        rcases hnext with hn | hn
        · exact Or.inr (Or.inr ⟨hd, hn⟩)
        · exact Or.inl ⟨hk, hd, by rw [hn]; simp, by rw [hn]; simp⟩
      | poll =>
        rw [hpc] at hnext
        rcases hnext with hn | hn | hn | hn
        · exact Or.inl ⟨hk, hd, by rw [hn]; simp, by rw [hn]; simp⟩
        · exact Or.inr (Or.inr ⟨hd, hn⟩)
        · exact Or.inl ⟨hk, hd, by rw [hn]; simp, by rw [hn]; simp⟩
        · exact Or.inl ⟨hk, hd, by rw [hn]; simp, by rw [hn]; simp⟩
      | recv =>
        rw [hpc] at hnext
        rcases hnext with hn | hn
        · exact Or.inl ⟨hk, hd, by rw [hn]; simp, by rw [hn]; simp⟩
        · exact Or.inr (Or.inr ⟨hd, hn⟩)
      | sleep =>
        rw [hpc] at hnext
        exact Or.inl ⟨hk, hd, by rw [hnext]; simp, by rw [hnext]; simp⟩
      | final_test =>
        rw [hpc] at hnext
        rcases hnext with ⟨_, hn⟩ | ⟨hf, _⟩
        · exact Or.inl ⟨hk, hd, by rw [hn]; simp, by rw [hn]; simp⟩
        · rw [h1, hf] at hk; cases hk
      | final_display => exact absurd hpc hfd
      | close => exact absurd hpc hc
      | exited c =>
        rw [hpc] at hnext
        have hc0 : c ≠ 0 := fun h0 => hx (by rw [hpc, h0])
        exact Or.inl ⟨hk, hd, by rw [hnext]; simp, by rw [hnext]; simpa using hc0⟩
  · have hfd : s.pc ≠ Ping.PC.final_display := by rcases hp with hp | hp <;> rw [hp] <;> simp
    obtain ⟨_, h2⟩ := Ping.step_footprint cfg e s hfd
    rcases hp with hp | hp
    · rw [hp] at hnext
      exact Or.inr (Or.inl ⟨by rw [h2, hd], Or.inr hnext⟩)
    · rw [hp] at hnext
      exact Or.inr (Or.inl ⟨by rw [h2, hd], Or.inr hnext⟩)
  · have hfd : s.pc ≠ Ping.PC.final_display := by rw [hp]; simp
    obtain ⟨_, h2⟩ := Ping.step_footprint cfg e s hfd
    rw [hp] at hnext
    exact Or.inr (Or.inr ⟨by rw [h2, hd], hnext⟩)

theorem Ping.run_main_noSummaryYet (cfg : Ping.Config) : ∀ (envs : List Ping.Env)
    (s : Ping.State), Ping.NoSummaryYet s →
    Ping.NoSummaryYet (Ping.run cfg (envs.map Ping.Action.main) s)
  | [], _, h => h
  | e :: envs, s, h => by
    rw [List.map_cons, Ping.run_cons, Ping.exec_main]
    exact Ping.run_main_noSummaryYet cfg envs _ (Ping.step_noSummaryYet cfg e s h)

theorem Ping.noSummaryYet_init : Ping.NoSummaryYet Ping.init :=
  Or.inl ⟨rfl, by decide, by decide, by decide⟩

/-- After the handler has run, `main` only moves towards its end. -/
theorem Ping.step_interrupted (cfg : Ping.Config) (e : Ping.Env) (s : Ping.State)
    (h : Ping.Interrupted s) :
    Ping.Interrupted (Ping.step cfg e s) ∧
      Ping.steps_left (Ping.step cfg e s).pc ≤ Ping.steps_left s.pc - 1 := by
  obtain ⟨hk, hd, hfd⟩ := h
  obtain ⟨h1, h2⟩ := Ping.step_footprint cfg e s hfd
  have hnext := Ping.step_next cfg e s
  have key : (Ping.step cfg e s).pc ≠ Ping.PC.final_display ∧
      Ping.steps_left (Ping.step cfg e s).pc ≤ Ping.steps_left s.pc - 1 := by
    cases hpc : s.pc with
    | loop_test =>
      rw [hpc] at hnext
      rcases hnext with ⟨hk2, _⟩ | hn
      · rw [hk] at hk2; cases hk2
      · rw [hn]; exact ⟨by simp, by decide⟩
    | build_send =>
      rw [hpc] at hnext
      rcases hnext with hn | hn <;> rw [hn] <;> exact ⟨by simp, by decide⟩
    | poll =>
      rw [hpc] at hnext
      rcases hnext with hn | hn | hn | hn <;> rw [hn] <;> exact ⟨by simp, by decide⟩
    | recv =>
      rw [hpc] at hnext
      rcases hnext with hn | hn <;> rw [hn] <;> exact ⟨by simp, by decide⟩
    | sleep => rw [hpc] at hnext; rw [hnext]; exact ⟨by simp, by decide⟩
    | final_test =>
      rw [hpc] at hnext
      rcases hnext with ⟨hk2, _⟩ | ⟨_, hn⟩
      · rw [hk] at hk2; cases hk2
      · rw [hn]; exact ⟨by simp, by decide⟩
    | final_display => exact absurd hpc hfd
    | close => rw [hpc] at hnext; rw [hnext]; exact ⟨by simp, by decide⟩
    | exited c => rw [hpc] at hnext; rw [hnext]; exact ⟨by simp, by simp [Ping.steps_left]⟩
  exact ⟨⟨by rw [h1, hk], by rw [h2, hd], key.1⟩, key.2⟩

theorem Ping.run_main_interrupted (cfg : Ping.Config) : ∀ (envs : List Ping.Env)
    (s : Ping.State), Ping.Interrupted s →
    Ping.Interrupted (Ping.run cfg (envs.map Ping.Action.main) s) ∧
      Ping.steps_left (Ping.run cfg (envs.map Ping.Action.main) s).pc
        ≤ Ping.steps_left s.pc - envs.length
  | [], _, h => ⟨h, by simp [Ping.run]⟩
  | e :: envs, s, h => by
    rw [List.map_cons, Ping.run_cons, Ping.exec_main]
    obtain ⟨h1, h2⟩ := Ping.step_interrupted cfg e s h
    obtain ⟨h3, h4⟩ := Ping.run_main_interrupted cfg envs _ h1
    refine ⟨h3, ?_⟩
    simp only [List.length_cons]
    omega

theorem Ping.steps_left_le (pc : Ping.PC) : Ping.steps_left pc ≤ 7 := by
  cases pc <;> simp [Ping.steps_left]

theorem Ping.steps_left_zero (pc : Ping.PC) (h : Ping.steps_left pc = 0) :
    ∃ c, pc = Ping.PC.exited c := by
  cases pc <;> simp [Ping.steps_left] at h
  exact ⟨_, rfl⟩

/-- What the guard `if (keep_running)` achieves. In a run without interrupt that
returns 0 (the count is exhausted), `display_statistics` has been executed
exactly once when `main` returns. In a run in which SIGINT is delivered once, at
a point of the loop or at the test that follows it, `display_statistics` has
been executed exactly once at every later point, whatever the network answers,
and `main` returns within seven more steps. -/
theorem Ping.summary_once_with_one_sigint_in_loop :
    (∀ (cfg : Ping.Config) (envs : List Ping.Env),
      (Ping.run cfg (envs.map Ping.Action.main) Ping.init).pc = Ping.PC.exited 0 →
      Ping.displays (Ping.run cfg (envs.map Ping.Action.main) Ping.init) = 1) ∧
    (∀ (cfg : Ping.Config) (pre post : List Ping.Env),
      Ping.before_final_display (Ping.run cfg (pre.map Ping.Action.main) Ping.init).pc = true →
      Ping.displays (Ping.run cfg
          (pre.map Ping.Action.main ++ Ping.Action.sigint :: post.map Ping.Action.main)
          Ping.init) = 1 ∧
        (7 ≤ post.length → ∃ c, (Ping.run cfg
          (pre.map Ping.Action.main ++ Ping.Action.sigint :: post.map Ping.Action.main)
          Ping.init).pc = Ping.PC.exited c)) := by
  constructor
  · intro cfg envs hexit
    rcases Ping.run_main_noSummaryYet cfg envs Ping.init Ping.noSummaryYet_init with
      ⟨_, _, _, hx⟩ | ⟨hd, _⟩ | ⟨_, hp⟩
    · exact absurd hexit hx
    · exact hd
    · rw [hp] at hexit; cases hexit
  · intro cfg pre post hloop
    rw [Ping.run_append, Ping.run_cons]
    have hpre := Ping.run_main_noSummaryYet cfg pre Ping.init Ping.noSummaryYet_init
    generalize Ping.run cfg (pre.map Ping.Action.main) Ping.init = s1 at hloop hpre
    have hs1 : Ping.displays s1 = 0 ∧ s1.pc ≠ Ping.PC.final_display ∧
        ∀ c, s1.pc ≠ Ping.PC.exited c := by
      rcases hpre with ⟨_, hd, _, _⟩ | ⟨_, hp | hp⟩ | ⟨_, hp⟩
      · refine ⟨hd, ?_, ?_⟩
        · intro h; rw [h] at hloop; cases hloop
        · intro c h; rw [h] at hloop; cases hloop
      · rw [hp] at hloop; cases hloop
      · rw [hp] at hloop; cases hloop
      · rw [hp] at hloop; cases hloop
    obtain ⟨hd, hfd, hne⟩ := hs1
    have hex : Ping.exec cfg s1 Ping.Action.sigint = Ping.handle_sigint s1 := by
      show (match s1.pc with
        | Ping.PC.exited _ => s1
        | _ => Ping.handle_sigint s1) = Ping.handle_sigint s1
      split
      · rename_i c hc; exact absurd hc (hne c)
      · rfl
    rw [hex]
    obtain ⟨e1, e2, e3⟩ := Ping.handle_sigint_effect s1
    have hint : Ping.Interrupted (Ping.handle_sigint s1) :=
      ⟨e2, by rw [e1, hd], by rw [e3]; exact hfd⟩
    obtain ⟨⟨_, r1, _⟩, r2⟩ := Ping.run_main_interrupted cfg post _ hint
    refine ⟨r1, fun hlen => Ping.steps_left_zero _ ?_⟩
    have := Ping.steps_left_le (Ping.handle_sigint s1).pc
    omega

/-- C9, the code against the claim. The summary can be printed twice. With
`count = 1` and a timeout, a SIGINT delivered after the test `if (keep_running)`
has passed and before the call `display_statistics(0)` that it guards makes the
handler and `main` both print the summary; so does a SIGINT delivered after that
call, before `main` returns; and two SIGINTs delivered inside the loop make the
handler print it twice. In each run `main` returns 0 with two summaries in its
output. -/
theorem ping_summary_printed_twice :
    (Ping.run (Ping.cfg_v4 1) (List.replicate 5 (Ping.Action.main Ping.env_timeout))
        Ping.init).pc = Ping.PC.final_display ∧
      Ping.displays (Ping.run (Ping.cfg_v4 1)
        (List.replicate 5 (Ping.Action.main Ping.env_timeout) ++ Ping.Action.sigint
          :: List.replicate 2 (Ping.Action.main Ping.env_timeout)) Ping.init) = 2 ∧
      (Ping.run (Ping.cfg_v4 1)
        (List.replicate 5 (Ping.Action.main Ping.env_timeout) ++ Ping.Action.sigint
          :: List.replicate 2 (Ping.Action.main Ping.env_timeout)) Ping.init).pc
        = Ping.PC.exited 0 ∧
      (Ping.run (Ping.cfg_v4 1)
        (List.replicate 5 (Ping.Action.main Ping.env_timeout) ++ Ping.Action.sigint
          :: List.replicate 2 (Ping.Action.main Ping.env_timeout)) Ping.init).out
        = [Ping.Line.banner 64, Ping.Line.request_timeout 1,
            Ping.Line.statistics_header, Ping.Line.statistics_counts 1 0,
            Ping.Line.statistics_header, Ping.Line.statistics_counts 1 0] ∧
      (Ping.run (Ping.cfg_v4 1) (List.replicate 6 (Ping.Action.main Ping.env_timeout))
        Ping.init).pc = Ping.PC.close ∧
      Ping.displays (Ping.run (Ping.cfg_v4 1)
        (List.replicate 6 (Ping.Action.main Ping.env_timeout) ++ Ping.Action.sigint
          :: List.replicate 1 (Ping.Action.main Ping.env_timeout)) Ping.init) = 2 ∧
      (Ping.run (Ping.cfg_v4 1)
        (List.replicate 6 (Ping.Action.main Ping.env_timeout) ++ Ping.Action.sigint
          :: List.replicate 1 (Ping.Action.main Ping.env_timeout)) Ping.init).pc
        = Ping.PC.exited 0 ∧
      (Ping.run (Ping.cfg_v4 1) (List.replicate 2 (Ping.Action.main Ping.env_timeout))
        Ping.init).pc = Ping.PC.poll ∧
      Ping.displays (Ping.run (Ping.cfg_v4 1)
        (List.replicate 2 (Ping.Action.main Ping.env_timeout) ++ Ping.Action.sigint
          :: Ping.Action.sigint :: List.replicate 4 (Ping.Action.main Ping.env_timeout))
        Ping.init) = 2 ∧
      (Ping.run (Ping.cfg_v4 1)
        (List.replicate 2 (Ping.Action.main Ping.env_timeout) ++ Ping.Action.sigint
          :: Ping.Action.sigint :: List.replicate 4 (Ping.Action.main Ping.env_timeout))
        Ping.init).pc = Ping.PC.exited 0 := by
  refine ⟨rfl, by decide, rfl, rfl, rfl, by decide, rfl, rfl, by decide, rfl⟩

/-! ## Echo replies and the identifier -/

/-- C10 fails as stated: an IPv4 echo reply whose identifier bytes `AB CD` differ
from the identifier `12 34` that this process puts in its requests is counted
(`stats.received` goes from 0 to 1, the extremes and the total take its
round-trip time) and a reply line is printed for it. -/
theorem ping_counts_echo_reply_with_foreign_identifier :
    (Ping.ipv4_icmp 0 171 205).getD 20 0 = Ping.ICMP_ECHOREPLY ∧
      ((Ping.ipv4_icmp 0 171 205).drop 24).take 2 ≠ htonsBytes (Ping.cfg_v4 3).pid ∧
      ((Ping.echo_request false (Ping.cfg_v4 3).pid 0).drop 4).take 2
        = htonsBytes (Ping.cfg_v4 3).pid ∧
      (Ping.run (Ping.cfg_v4 3)
        (List.replicate 3 (Ping.Action.main (Ping.env_recv (Ping.ipv4_icmp 0 171 205) 7 5)))
        Ping.init).pc = Ping.PC.recv ∧
      (Ping.run (Ping.cfg_v4 3)
        (List.replicate 3 (Ping.Action.main (Ping.env_recv (Ping.ipv4_icmp 0 171 205) 7 5)))
        Ping.init).stats.received = 0 ∧
      (Ping.run (Ping.cfg_v4 3)
        (List.replicate 4 (Ping.Action.main (Ping.env_recv (Ping.ipv4_icmp 0 171 205) 7 5)))
        Ping.init).stats.received = 1 ∧
      (Ping.run (Ping.cfg_v4 3)
        (List.replicate 4 (Ping.Action.main (Ping.env_recv (Ping.ipv4_icmp 0 171 205) 7 5)))
        Ping.init).out = [Ping.Line.banner 64, Ping.Line.reply 8 7 1 57 5] := by
  refine ⟨rfl, by decide, rfl, rfl, rfl, rfl, rfl⟩

/-- C10, as amended. In ping's receive path the identifier of a received packet
is never read: a packet received by `recvfrom` (at least one byte) is counted if
and only if its type byte is echo reply (`ICMP_ECHOREPLY` at the offset given by
the IP header length for IPv4, `ICMP6_ECHO_REPLY` at offset 0 for IPv6). If it
is, `received`, `min_rtt`, `max_rtt` and `total_rtt` are updated, one reply line
is printed and `seq` is incremented; if it is not, the packet is ignored:
the statistics and `seq` are unchanged and nothing is printed. -/
theorem ping_reply_counted_by_type_only (cfg : Ping.Config) (e : Ping.Env) (s : Ping.State)
    (data : List Nat) (hpc : s.pc = Ping.PC.recv)
    (htype : cfg.options.type = 4 ∨ cfg.options.type = 6)
    (hrecv : e.recv = some data) (hdata : data ≠ []) :
    (((cfg.options.type = 4 ∧
          (Ping.received_buffer s.buffer data).getD
            ((Ping.received_buffer s.buffer data).getD 0 0 % 16 * 4) 0 = Ping.ICMP_ECHOREPLY) ∨
        (cfg.options.type = 6 ∧
          (Ping.received_buffer s.buffer data).getD 0 0 = Ping.ICMP6_ECHO_REPLY)) →
      (Ping.step cfg e s).stats = Ping.record_reply e.rtt s.stats ∧
        (Ping.step cfg e s).seq = s.seq + 1 ∧
        ∃ b t, (Ping.step cfg e s).out
          = s.out ++ [Ping.Line.reply b e.src (s.seq + 1) t e.rtt]) ∧
    (¬ ((cfg.options.type = 4 ∧
          (Ping.received_buffer s.buffer data).getD
            ((Ping.received_buffer s.buffer data).getD 0 0 % 16 * 4) 0 = Ping.ICMP_ECHOREPLY) ∨
        (cfg.options.type = 6 ∧
          (Ping.received_buffer s.buffer data).getD 0 0 = Ping.ICMP6_ECHO_REPLY)) →
      (Ping.step cfg e s).stats = s.stats ∧ (Ping.step cfg e s).seq = s.seq ∧
        (Ping.step cfg e s).out = s.out) := by
  have hlen : ¬ ((data.take Ping.BUFFER_SIZE).length : Int) ≤ 0 := by
    cases data with
    | nil => exact absurd rfl hdata
    | cons a l => simp [Ping.BUFFER_SIZE]; omega
  rw [Ping.step_recv cfg e s hpc]
  unfold Ping.recv_step
  rw [if_pos htype, hrecv]
  dsimp only
  rw [if_neg hlen]
  by_cases h4 : cfg.options.type = 4
  · have h6 : cfg.options.type ≠ 6 := by omega
    rw [if_pos h4]
    split_ifs with hrep
    · simpa [h4] using hrep
    · simpa [h4] using hrep
  · have h6 : cfg.options.type = 6 := by omega
    rw [if_neg h4]
    split_ifs with hrep
    · simpa [h6] using hrep
    · simpa [h6] using hrep

/-- A concrete instance: an IPv4 echo reply carrying the identifier of another
process. -/
theorem ping_reply_counted_by_type_only_witness :
    (Ping.step (Ping.cfg_v4 3) (Ping.env_recv (Ping.ipv4_icmp 0 171 205) 7 5)
        { Ping.init with pc := Ping.PC.recv }).stats
        = Ping.record_reply 5 Ping.stats_init ∧
      (Ping.step (Ping.cfg_v4 3) (Ping.env_recv (Ping.ipv4_icmp 0 171 205) 7 5)
        { Ping.init with pc := Ping.PC.recv }).seq = 0 + 1 ∧
      ∃ b t, (Ping.step (Ping.cfg_v4 3) (Ping.env_recv (Ping.ipv4_icmp 0 171 205) 7 5)
        { Ping.init with pc := Ping.PC.recv }).out
          = [Ping.Line.banner Ping.payload_size] ++ [Ping.Line.reply b 7 (0 + 1) t 5] :=
  (ping_reply_counted_by_type_only (Ping.cfg_v4 3)
    (Ping.env_recv (Ping.ipv4_icmp 0 171 205) 7 5) { Ping.init with pc := Ping.PC.recv }
    (Ping.ipv4_icmp 0 171 205) rfl (Or.inl rfl) rfl (by decide)).1 (Or.inl ⟨rfl, rfl⟩)

/-! ## Hop lines: slots and address -/

theorem Traceroute.range_tries : List.range Traceroute.TRIES_PER_HOP = [0, 1, 2] := rfl

theorem Traceroute.range_three : List.range 3 = [0, 1, 2] := rfl

theorem Traceroute.tries_eq (net : Nat → Nat → Traceroute.TryOutcome) (ttl : Nat) :
    Traceroute.tries net ttl = [net ttl 0, net ttl 1, net ttl 2] := rfl

/-- Every line printed by the loop is the line of its hop. -/
theorem Traceroute.ttl_loop_lines (dest : Nat) (net : Nat → Nat → Traceroute.TryOutcome) :
    ∀ (left ttl : Nat) (seq : Int) (tr : Traceroute.Trace),
      (∀ l ∈ tr.lines, l = Traceroute.hop_line dest net l.ttl) →
      ∀ l ∈ (Traceroute.ttl_loop dest net left ttl seq tr).lines,
        l = Traceroute.hop_line dest net l.ttl
  | 0, _, _, _, h => by rw [Traceroute.ttl_loop]; exact h
  | left + 1, ttl, seq, tr, h => by
    have hnew : ∀ l ∈ tr.lines ++ [Traceroute.print_probe_results ttl
        (Traceroute.hop dest net ttl).recv_addr (Traceroute.hop dest net ttl).replies
        (Traceroute.hop dest net ttl).times], l = Traceroute.hop_line dest net l.ttl := by
      intro l hl
      rcases List.mem_append.1 hl with hl | hl
      · exact h l hl
      · rw [List.mem_singleton] at hl
        rw [hl, Traceroute.print_probe_results_ttl]
        rfl
    rw [Traceroute.ttl_loop]
    split_ifs
    · exact hnew
    · exact Traceroute.ttl_loop_lines dest net left _ _ _ hnew

/-- C11 fails as stated: when only the second try of a hop is answered, after 5
milliseconds, the line printed by the sweep shows `5 * *`, while try by try the
slots would be `* 5 *`. -/
theorem traceroute_slots_not_per_try :
    (Traceroute.sweep 9 Traceroute.net_second_try_only).lines[0]?
        = some (Traceroute.hop_line 9 Traceroute.net_second_try_only 1) ∧
      (Traceroute.hop_line 9 Traceroute.net_second_try_only 1).slots
        = [Traceroute.Slot.time 5, Traceroute.Slot.star, Traceroute.Slot.star] ∧
      (Traceroute.tries Traceroute.net_second_try_only 1).map Traceroute.per_try_slot
        = [Traceroute.Slot.star, Traceroute.Slot.time 5, Traceroute.Slot.star] ∧
      (Traceroute.hop_line 9 Traceroute.net_second_try_only 1).slots
        ≠ (Traceroute.tries Traceroute.net_second_try_only 1).map Traceroute.per_try_slot := by
  refine ⟨rfl, rfl, rfl, by decide⟩

/-- C11, as amended. For every hop and every outcome of its three tries, the
line printed for the hop shows the round-trip times of the answered tries, in
try order, in its first slots, and the marker `*` in the slots that remain: slot
`i` holds the time of the `i`-th answered try. Every line printed by the sweep is
such a line. -/
theorem traceroute_slots_show_replies_in_order :
    (∀ (dest : Nat) (net : Nat → Nat → Traceroute.TryOutcome) (ttl : Nat),
      (Traceroute.hop_line dest net ttl).slots
        = (Traceroute.answered_rtts (Traceroute.tries net ttl)).map Traceroute.Slot.time
          ++ List.replicate
            (Traceroute.TRIES_PER_HOP
              - (Traceroute.answered_rtts (Traceroute.tries net ttl)).length)
            Traceroute.Slot.star) ∧
    (∀ (dest : Nat) (net : Nat → Nat → Traceroute.TryOutcome),
      ∀ l ∈ (Traceroute.sweep dest net).lines, l = Traceroute.hop_line dest net l.ttl) := by
  constructor
  · intro dest net ttl
    rw [Traceroute.tries_eq]
    unfold Traceroute.hop_line
    rw [Traceroute.hop_eq]
    cases net ttl 0 <;> cases net ttl 1 <;> cases net ttl 2 <;>
      simp [Traceroute.try_step, Traceroute.hop_init, Traceroute.print_probe_results,
        Traceroute.answered_rtts, Traceroute.HopLine.slots, Traceroute.range_three,
        Traceroute.TRIES_PER_HOP, List.replicate]
  · intro dest net
    exact Traceroute.ttl_loop_lines dest net _ _ _ _ (by simp)

/-- C12 fails as stated: when the first try of a hop is answered from address 7
and the second from address 8, the line printed by the sweep shows address 8,
while the first answered try came from address 7. -/
theorem traceroute_address_not_first_answered :
    (Traceroute.sweep 9 Traceroute.net_two_routers).lines[0]?
        = some (Traceroute.hop_line 9 Traceroute.net_two_routers 1) ∧
      (Traceroute.hop_line 9 Traceroute.net_two_routers 1).addr = some 8 ∧
      (Traceroute.answered_srcs (Traceroute.tries Traceroute.net_two_routers 1)).head?
        = some 7 ∧
      (Traceroute.hop_line 9 Traceroute.net_two_routers 1).addr
        ≠ (Traceroute.answered_srcs (Traceroute.tries Traceroute.net_two_routers 1)).head? := by
  refine ⟨rfl, rfl, rfl, by decide⟩

/-- C12, as amended. For every hop, the address printed on the hop line is the
source address of the last answered try of that hop, in try order (`recv_addr`
is overwritten by every reply); no address is printed when no try is answered.
Every line printed by the sweep is such a line. -/
theorem traceroute_address_is_last_answered :
    (∀ (dest : Nat) (net : Nat → Nat → Traceroute.TryOutcome) (ttl : Nat),
      (Traceroute.hop_line dest net ttl).addr
        = (Traceroute.answered_srcs (Traceroute.tries net ttl)).getLast?) ∧
    (∀ (dest : Nat) (net : Nat → Nat → Traceroute.TryOutcome),
      ∀ l ∈ (Traceroute.sweep dest net).lines,
        l.addr = (Traceroute.answered_srcs (Traceroute.tries net l.ttl)).getLast?) := by
  have key : ∀ (dest : Nat) (net : Nat → Nat → Traceroute.TryOutcome) (ttl : Nat),
      (Traceroute.hop_line dest net ttl).addr
        = (Traceroute.answered_srcs (Traceroute.tries net ttl)).getLast? := by
    intro dest net ttl
    rw [Traceroute.tries_eq]
    unfold Traceroute.hop_line
    rw [Traceroute.hop_eq]
    cases net ttl 0 <;> cases net ttl 1 <;> cases net ttl 2 <;>
      simp [Traceroute.try_step, Traceroute.hop_init, Traceroute.print_probe_results,
        Traceroute.answered_srcs, Traceroute.HopLine.addr]
  refine ⟨key, fun dest net l hl => ?_⟩
  have h := Traceroute.ttl_loop_lines dest net Traceroute.MAX_HOPS 1 1
    { lines := [], probes := [] } (by simp) l hl
  rw [← key dest net l.ttl, ← h]

/-! ## Socket creation in ping -/

/-- The value returned by `create_socket` is never negative. -/
theorem Ping.create_socket_nonneg (ip_type : Int) (env : Ping.SocketEnv) :
    0 ≤ (Ping.create_socket ip_type env).1 ∧
      Ping.StartLine.sudo_hint ∉ (Ping.create_socket ip_type env).2 := by
  unfold Ping.create_socket
  split_ifs <;> simp <;> omega

/-- C13, the code against the claim. `create_socket` reports its errors by
returning 1 (an address that `inet_pton` rejects, an IP type other than 4 or 6,
a negative result of `socket`), but `main` tests `sock < 0`: on every input the
start of `main` reaches the loop, with descriptor 1 after an error, and never
prints the hint, also when `errno` is `EPERM`. The loop then builds a probe and
passes it to `sendto`, and counts it when `sendto` succeeds. -/
theorem ping_socket_error_reaches_loop :
    Ping.create_socket 4 Ping.env_bad_address = (1, [Ping.StartLine.invalid_ipv4]) ∧
      Ping.create_socket 4 Ping.env_no_privilege
        = (1, [Ping.StartLine.socket_creation_failed]) ∧
      Ping.create_socket 5 Ping.env_no_privilege = (1, [Ping.StartLine.invalid_ip_type]) ∧
      Ping.main_startup (Ping.cfg_v4 (-1)).options Ping.env_bad_address
        = Ping.Startup.entered_loop 1 [Ping.StartLine.invalid_ipv4] ∧
      Ping.main_startup (Ping.cfg_v4 (-1)).options Ping.env_no_privilege
        = Ping.Startup.entered_loop 1 [Ping.StartLine.socket_creation_failed] ∧
      (∀ (options : Ping.ping_options) (env : Ping.SocketEnv),
        ∃ sock err, Ping.main_startup options env = Ping.Startup.entered_loop sock err ∧
          0 ≤ sock ∧ Ping.StartLine.sudo_hint ∉ err) ∧
      (Ping.run (Ping.cfg_v4 (-1))
        [Ping.Action.main Ping.env_timeout, Ping.Action.main Ping.env_timeout]
        Ping.init).sendto_log = [Ping.echo_request false 4660 0] ∧
      (Ping.run (Ping.cfg_v4 (-1))
        [Ping.Action.main Ping.env_timeout, Ping.Action.main Ping.env_timeout]
        Ping.init).stats.transmitted = 1 := by
  refine ⟨by decide, by decide, by decide, by decide, by decide, ?_, rfl, rfl⟩
  intro options env
  obtain ⟨h1, h2⟩ := Ping.create_socket_nonneg options.type env
  refine ⟨(Ping.create_socket options.type env).1, (Ping.create_socket options.type env).2,
    ?_, h1, h2⟩
  unfold Ping.main_startup
  simp only []
  rw [if_neg (by omega)]

/-! ## A silent hop -/

/-- One round of the TTL loop. -/
theorem Traceroute.ttl_loop_succ (dest : Nat) (net : Nat → Nat → Traceroute.TryOutcome)
    (left ttl : Nat) (seq : Int) (tr : Traceroute.Trace) :
    Traceroute.ttl_loop dest net (left + 1) ttl seq tr
      = if (Traceroute.hop dest net ttl).reached_dest then
          { lines := tr.lines ++ [Traceroute.hop_line dest net ttl]
            probes := tr.probes ++ [⟨ttl, seq + 0⟩, ⟨ttl, seq + 1⟩, ⟨ttl, seq + 2⟩] }
        else Traceroute.ttl_loop dest net left (ttl + 1) (seq + 3)
          { lines := tr.lines ++ [Traceroute.hop_line dest net ttl]
            probes := tr.probes ++ [⟨ttl, seq + 0⟩, ⟨ttl, seq + 1⟩, ⟨ttl, seq + 2⟩] } := by
  rw [Traceroute.ttl_loop]
  rfl

/-- The loop only adds lines and probes. -/
theorem Traceroute.ttl_loop_extends (dest : Nat) (net : Nat → Nat → Traceroute.TryOutcome) :
    ∀ (left ttl : Nat) (seq : Int) (tr : Traceroute.Trace),
      ∃ ls ps, (Traceroute.ttl_loop dest net left ttl seq tr).lines = tr.lines ++ ls ∧
        (Traceroute.ttl_loop dest net left ttl seq tr).probes = tr.probes ++ ps
  | 0, _, _, tr => ⟨[], [], by simp [Traceroute.ttl_loop], by simp [Traceroute.ttl_loop]⟩
  | left + 1, ttl, seq, tr => by
    rw [Traceroute.ttl_loop_succ]
    split_ifs
    · exact ⟨_, _, rfl, rfl⟩
    · obtain ⟨ls, ps, h1, h2⟩ := Traceroute.ttl_loop_extends dest net left (ttl + 1) (seq + 3)
        { lines := tr.lines ++ [Traceroute.hop_line dest net ttl]
          probes := tr.probes ++ [⟨ttl, seq + 0⟩, ⟨ttl, seq + 1⟩, ⟨ttl, seq + 2⟩] }
      exact ⟨_, _, by rw [h1, List.append_assoc], by rw [h2, List.append_assoc]⟩

/-- A hop none of whose tries is answered leaves the locals as they were. -/
theorem Traceroute.hop_silent (dest : Nat) (net : Nat → Nat → Traceroute.TryOutcome)
    (ttl : Nat)
    (h : ∀ t, t < Traceroute.TRIES_PER_HOP →
      net ttl t = Traceroute.TryOutcome.send_failed ∨
        net ttl t = Traceroute.TryOutcome.no_reply) :
    Traceroute.hop dest net ttl = Traceroute.hop_init := by
  rw [Traceroute.hop_eq]
  rcases h 0 (by decide) with h0 | h0 <;> rcases h 1 (by decide) with h1 | h1 <;>
    rcases h 2 (by decide) with h2 | h2 <;> rw [h0, h1, h2] <;> rfl

/-- The loop started at `ttl` when the hops before `ttl + d` do not reach the
destination and the hop `ttl + d` is silent, with at least one more value of
`ttl` left after it. -/
theorem Traceroute.ttl_loop_silent (dest : Nat) (net : Nat → Nat → Traceroute.TryOutcome) :
    ∀ (d left ttl : Nat) (seq : Int) (tr : Traceroute.Trace), d + 1 < left →
      (∀ t, ttl ≤ t → t < ttl + d → (Traceroute.hop dest net t).reached_dest = false) →
      Traceroute.hop dest net (ttl + d) = Traceroute.hop_init →
      ∃ ls ps,
        (Traceroute.ttl_loop dest net left ttl seq tr).lines
          = tr.lines ++ ((List.range' ttl d).map (Traceroute.hop_line dest net)
            ++ (Traceroute.HopLine.unanswered (ttl + d)
              :: Traceroute.hop_line dest net (ttl + d + 1) :: ls)) ∧
        (Traceroute.ttl_loop dest net left ttl seq tr).probes = tr.probes ++ ps ∧
        ∀ i : Nat, i < 3 →
          ({ ttl := ttl + d + 1, seq := seq + 3 * (d + 1) + i } : Traceroute.Probe) ∈ ps
  | _, 0, _, _, _, h, _, _ => by omega
  | _, 1, _, _, _, h, _, _ => by omega
  | 0, left + 2, ttl, seq, tr, _, _, hs => by
    rw [Nat.add_zero] at hs
    have hline : Traceroute.hop_line dest net ttl = Traceroute.HopLine.unanswered ttl := by
      unfold Traceroute.hop_line; rw [hs]; rfl
    have hnr : (Traceroute.hop dest net ttl).reached_dest = false := by rw [hs]; rfl
    rw [Traceroute.ttl_loop_succ, hnr, hline, Traceroute.ttl_loop_succ]
    simp only [Bool.false_eq_true, if_false, List.range'_zero, List.map_nil, List.nil_append,
      Nat.add_zero]
    have hmem : ∀ (ps : List Traceroute.Probe) (i : Nat), i < 3 →
        ({ ttl := ttl + 1, seq := seq + 3 * (0 + 1) + i } : Traceroute.Probe)
          ∈ [⟨ttl, seq + 0⟩, ⟨ttl, seq + 1⟩, ⟨ttl, seq + 2⟩]
            ++ ([⟨ttl + 1, seq + 3 + 0⟩, ⟨ttl + 1, seq + 3 + 1⟩, ⟨ttl + 1, seq + 3 + 2⟩]
              ++ ps) := by
      intro ps i hi
      obtain rfl | rfl | rfl : i = 0 ∨ i = 1 ∨ i = 2 := by omega
      all_goals simp
    split_ifs
    · exact ⟨[], [⟨ttl, seq + 0⟩, ⟨ttl, seq + 1⟩, ⟨ttl, seq + 2⟩]
          ++ ([⟨ttl + 1, seq + 3 + 0⟩, ⟨ttl + 1, seq + 3 + 1⟩, ⟨ttl + 1, seq + 3 + 2⟩] ++ []),
        by simp, by simp, hmem []⟩
    · obtain ⟨ls, ps, h1, h2⟩ := Traceroute.ttl_loop_extends dest net left (ttl + 1 + 1)
        (seq + 3 + 3)
        { lines := tr.lines ++ [Traceroute.HopLine.unanswered ttl]
            ++ [Traceroute.hop_line dest net (ttl + 1)]
          probes := tr.probes ++ [⟨ttl, seq + 0⟩, ⟨ttl, seq + 1⟩, ⟨ttl, seq + 2⟩]
            ++ [⟨ttl + 1, seq + 3 + 0⟩, ⟨ttl + 1, seq + 3 + 1⟩, ⟨ttl + 1, seq + 3 + 2⟩] }
      exact ⟨ls, [⟨ttl, seq + 0⟩, ⟨ttl, seq + 1⟩, ⟨ttl, seq + 2⟩]
          ++ ([⟨ttl + 1, seq + 3 + 0⟩, ⟨ttl + 1, seq + 3 + 1⟩, ⟨ttl + 1, seq + 3 + 2⟩] ++ ps),
        by rw [h1]; simp, by rw [h2]; simp, hmem ps⟩
  | d + 1, left + 2, ttl, seq, tr, hlt, hno, hs => by
    have hnr := hno ttl (le_refl _) (by omega)
    rw [Traceroute.ttl_loop_succ, hnr]
    simp only [Bool.false_eq_true, if_false]
    obtain ⟨ls, ps, h1, h2, h3⟩ := Traceroute.ttl_loop_silent dest net d (left + 1) (ttl + 1)
      (seq + 3)
      { lines := tr.lines ++ [Traceroute.hop_line dest net ttl]
        probes := tr.probes ++ [⟨ttl, seq + 0⟩, ⟨ttl, seq + 1⟩, ⟨ttl, seq + 2⟩] }
      (by omega) (fun t ht1 ht2 => hno t (by omega) (by omega))
      (by rw [show ttl + 1 + d = ttl + (d + 1) by omega]; exact hs)
    refine ⟨ls, [⟨ttl, seq + 0⟩, ⟨ttl, seq + 1⟩, ⟨ttl, seq + 2⟩] ++ ps, ?_,
      by rw [h2, List.append_assoc], ?_⟩
    · rw [h1, show ttl + 1 + d = ttl + (d + 1) by omega]
      simp [List.range'_succ]
    · intro i hi
      have := h3 i hi
      rw [show ttl + 1 + d + 1 = ttl + (d + 1) + 1 by omega,
        show seq + 3 + 3 * ((d : Int) + 1) + i = seq + 3 * (((d + 1 : Nat) : Int) + 1) + i by
          push_cast; ring] at this
      exact List.mem_append_right _ this

/-- C14. Traceroute unanswered hop. For every hop `h < MAX_HOPS` that the sweep
reaches (no reply at a lower TTL comes from the destination) and at which none
of the three tries receives a reply (the send fails or `recvfrom` returns
nothing), the line printed for `h`, the `h`-th line, is the hop number followed
by `* * *` with no address, and the sweep goes on: it passes the three probes of
hop `h + 1` to `send_probe` and prints the line of hop `h + 1` next. -/
theorem traceroute_silent_hop_then_next_hop (dest : Nat)
    (net : Nat → Nat → Traceroute.TryOutcome) (h : Nat)
    (h1 : 1 ≤ h) (hlt : h < Traceroute.MAX_HOPS)
    (hbefore : ∀ ttl t src rtt, 1 ≤ ttl → ttl < h → t < Traceroute.TRIES_PER_HOP →
      net ttl t = Traceroute.TryOutcome.reply src rtt → src ≠ dest)
    (hnone : ∀ t, t < Traceroute.TRIES_PER_HOP →
      net h t = Traceroute.TryOutcome.send_failed ∨
        net h t = Traceroute.TryOutcome.no_reply) :
    (Traceroute.sweep dest net).lines[h - 1]? = some (Traceroute.HopLine.unanswered h) ∧
      (Traceroute.sweep dest net).lines[h]?
        = some (Traceroute.hop_line dest net (h + 1)) ∧
      ∀ i : Nat, i < Traceroute.TRIES_PER_HOP →
        ({ ttl := h + 1, seq := 3 * (h : Int) + 1 + i } : Traceroute.Probe)
          ∈ (Traceroute.sweep dest net).probes := by
  have hno : ∀ t, 1 ≤ t → t < 1 + (h - 1) →
      (Traceroute.hop dest net t).reached_dest = false := by
    intro t ht1 ht2
    by_contra hc
    have hc2 : (Traceroute.hop dest net t).reached_dest = true := by
      cases hr : (Traceroute.hop dest net t).reached_dest
      · exact absurd hr hc
      · rfl
    obtain ⟨i, r, hi, hr⟩ := (Traceroute.hop_reached_iff dest net t).1 hc2
    exact hbefore t i dest r ht1 (by omega) hi hr rfl
  have hh : 1 + (h - 1) = h := by omega
  have hs : Traceroute.hop dest net (1 + (h - 1)) = Traceroute.hop_init := by
    rw [hh]; exact Traceroute.hop_silent dest net h hnone
  have hM : Traceroute.MAX_HOPS = 30 := rfl
  obtain ⟨ls, ps, hl, hp, hmem⟩ := Traceroute.ttl_loop_silent dest net (h - 1)
    Traceroute.MAX_HOPS 1 1 { lines := [], probes := [] } (by omega) hno hs
  rw [hh] at hl hmem
  simp only [List.nil_append] at hl hp
  have hlen : ((List.range' 1 (h - 1)).map (Traceroute.hop_line dest net)).length = h - 1 := by
    simp
  unfold Traceroute.sweep
  refine ⟨?_, ?_, ?_⟩
  · rw [hl, List.getElem?_append_right (by omega), hlen]
    simp
  · rw [hl, List.getElem?_append_right (by omega), hlen, show h - (h - 1) = 1 by omega]
    simp
  · intro i hi
    rw [hp]
    have := hmem i hi
    rw [show (1 : Int) + 3 * (((h - 1 : Nat) : Int) + 1) + i = 3 * (h : Int) + 1 + i by
      rw [Int.natCast_sub h1]; push_cast; ring] at this
    exact this

/-- A concrete instance, the scenario of the specification: the router of hop 2
drops all three tries and the destination 9 answers at hop 3. -/
theorem traceroute_silent_hop_then_next_hop_witness :
    (Traceroute.sweep 9 Traceroute.net_silent_second_hop).lines[2 - 1]?
        = some (Traceroute.HopLine.unanswered 2) ∧
      (Traceroute.sweep 9 Traceroute.net_silent_second_hop).lines[2]?
        = some (Traceroute.hop_line 9 Traceroute.net_silent_second_hop (2 + 1)) ∧
      ∀ i : Nat, i < Traceroute.TRIES_PER_HOP →
        ({ ttl := 2 + 1, seq := 3 * ((2 : Nat) : Int) + 1 + i } : Traceroute.Probe)
          ∈ (Traceroute.sweep 9 Traceroute.net_silent_second_hop).probes :=
  traceroute_silent_hop_then_next_hop 9 Traceroute.net_silent_second_hop 2 (by decide)
    (by decide)
    (fun ttl t src rtt h1 h2 _ hr => by
      have h : ttl = 1 := by omega
      subst h
      simp [Traceroute.net_silent_second_hop] at hr
      omega)
    (fun t _ => Or.inr (by simp [Traceroute.net_silent_second_hop]))

/-! ## The two checksum functions agree -/

/-- On a little-endian host the two summing loops compute the same sum. -/
theorem sum_loops_agree_little_endian : ∀ (buf : List Nat) (acc : Nat),
    Ping.sum_loop false buf acc = Traceroute.sum_loop false buf acc
  | [], _ => rfl
  | [b], acc => by simp [Ping.sum_loop, Traceroute.sum_loop, word16]
  | b0 :: b1 :: rest, acc => by
    rw [Ping.sum_loop, Traceroute.sum_loop]
    exact sum_loops_agree_little_endian rest _

/-- A 16-bit value is determined by its class modulo `0xFFFF` and by whether it
is zero. -/
theorem fold_unique {s f g : Nat} (hf : f < 65536) (hg : g < 65536)
    (hfm : f % 65535 = s % 65535) (hgm : g % 65535 = s % 65535)
    (hf0 : f = 0 ↔ s = 0) (hg0 : g = 0 ↔ s = 0) : f = g := by
  have h0 : f = 0 ↔ g = 0 := hf0.trans hg0.symm
  have hm : f % 65535 = g % 65535 := hfm.trans hgm.symm
  omega

/-- The two fold statements of traceroute.c give the complement of what the fold
loop of ping.c gives, on every 32-bit sum. -/
theorem fold_twice_eq_fold_loop (s : Nat) (hs : s < 2 ^ 32) :
    Traceroute.fold_twice s = 65535 - Ping.fold_loop s % 65536 := by
  obtain ⟨h1, h2, h3⟩ := Ping.fold_loop_spec s hs
  obtain ⟨f, hc, hf, hfm, hf0⟩ := Traceroute.fold_twice_spec s hs
  rw [hc, Nat.mod_eq_of_lt h1, fold_unique hf h1 hfm h2 hf0 h3]

/-- The fold loop of ping.c leaves after at most two rounds on a 32-bit sum. -/
theorem Ping.fold_loop_rounds (s : Nat) (hs : s < 2 ^ 32) :
    ∃ n, n ≤ 2 ∧ Ping.fold_loop s = Ping.fold_body^[n] s ∧
      (Ping.fold_body^[n] s) / 65536 = 0 := by
  have hsmall : ∀ x, x < 2 ^ 32 → Ping.fold_body x = x % 65536 + x / 65536 := fun x hx => by
    unfold Ping.fold_body
    exact Nat.mod_eq_of_lt (by omega)
  have hcarry : ∀ x, 65536 ≤ x → Ping.fold_loop x = Ping.fold_loop (Ping.fold_body x) :=
    fun x hx => Ping.fold_loop_carry hx
  by_cases h0 : s < 65536
  · exact ⟨0, by decide, Ping.fold_loop_done h0, by simp only [Function.iterate_zero, id]; omega⟩
  · have e1 := hsmall s hs
    by_cases h1 : Ping.fold_body s < 65536
    · refine ⟨1, by decide, ?_, ?_⟩
      · rw [hcarry s (by omega), Ping.fold_loop_done h1]; rfl
      · simp only [Function.iterate_succ, Function.iterate_zero, Function.comp, id]; omega
    · have hb : Ping.fold_body s < 2 ^ 32 := by omega
      have e2 := hsmall (Ping.fold_body s) hb
      have h2 : Ping.fold_body (Ping.fold_body s) < 65536 := by omega
      refine ⟨2, le_refl _, ?_, ?_⟩
      · rw [hcarry s (by omega), hcarry _ (by omega), Ping.fold_loop_done h2]; rfl
      · simp only [Function.iterate_succ, Function.iterate_zero, Function.comp, id]; omega

/-- On a big-endian host the two functions differ on a buffer of odd length:
traceroute.c stores the odd byte into the high byte of the word it adds. -/
theorem checksums_differ_big_endian_odd :
    Ping.calculate_checksum true [1] = 0xFFFE ∧
      Traceroute.calculate_checksum true [1] = 0xFEFF := by
  constructor
  · unfold Ping.calculate_checksum
    have : Ping.sum_loop true [1] 0 = 1 := by decide
    rw [this, Ping.fold_loop_done (by norm_num)]
  · decide

/-- C15. The two checksum implementations are equivalent on a little-endian
host: for every buffer, of even or odd length, ping's `calculate_checksum` and
traceroute's `calculate_checksum` return the same 16-bit value, with 32-bit
accumulators. For every 32-bit sum the two fold statements of traceroute.c give
the complement of the result of the fold loop of ping.c, and that loop
terminates: it leaves after at most two rounds, with a value without carry. -/
theorem checksums_equivalent_little_endian :
    (∀ (buf : List Nat),
      Ping.calculate_checksum false buf = Traceroute.calculate_checksum false buf) ∧
    (∀ (s : Nat), s < 2 ^ 32 →
      Traceroute.fold_twice s = 65535 - Ping.fold_loop s % 65536 ∧
        Ping.fold_loop s / 65536 = 0 ∧
        ∃ n, n ≤ 2 ∧ Ping.fold_loop s = Ping.fold_body^[n] s ∧
          (Ping.fold_body^[n] s) / 65536 = 0) := by
  constructor
  · intro buf
    have hS : Ping.sum_loop false buf 0 < 2 ^ 32 := by
      rw [Ping.sum_loop_eq false buf 0 (by norm_num)]
      exact Nat.mod_lt _ (by norm_num)
    unfold Ping.calculate_checksum Traceroute.calculate_checksum
    rw [← sum_loops_agree_little_endian buf 0, fold_twice_eq_fold_loop _ hS]
  · intro s hs
    have h1 := (Ping.fold_loop_spec s hs).1
    exact ⟨fold_twice_eq_fold_loop s hs, by omega, Ping.fold_loop_rounds s hs⟩

/-- A concrete instance: the largest 32-bit sum. -/
theorem checksums_equivalent_little_endian_witness :
    Traceroute.fold_twice 4294967295 = 65535 - Ping.fold_loop 4294967295 % 65536 ∧
      Ping.fold_loop 4294967295 / 65536 = 0 ∧
      ∃ n, n ≤ 2 ∧ Ping.fold_loop 4294967295 = Ping.fold_body^[n] 4294967295 ∧
        (Ping.fold_body^[n] 4294967295) / 65536 = 0 :=
  checksums_equivalent_little_endian.2 4294967295 (by norm_num)
